import Mathlib

/-!
Verification development for the cmg-api repository (a SymPy/Ollama math-tutor
pipeline).  Python strings are modelled as `List Char`; each Python function of
the core pipeline is translated into an executable Lean definition, and the
spec claims are settled as theorems about those definitions.  The external
SymPy engine (out of scope for the repository) is modelled concretely on the
polynomial fragment the claims exercise; every such model is marked in its
doc comment.
-/

/-! ## Basic string (List Char) utilities -/

/-- Whitespace test used to model Python `str.strip` / `\s`. -/
def isWsC (c : Char) : Bool := c = ' ' || c = '\t' || c = '\n' || c = '\r'

/-- Model of Python `str.strip`: drop leading and trailing whitespace. -/
def pstrip (l : List Char) : List Char :=
  ((l.dropWhile isWsC).reverse.dropWhile isWsC).reverse

/-- Model of Python `c in s` for a single character. -/
def hasChar (c : Char) (l : List Char) : Bool := l.contains c

/-- Model of Python `sub in s` (substring containment). -/
def containsSub (pat : List Char) (l : List Char) : Bool :=
  (List.range (l.length + 1)).any (fun i => pat.isPrefixOf (l.drop i))

/-- Model of Python `s.split(sep, 1)` for a single-character separator:
splits at the first occurrence, returning `none` when absent. -/
def splitFirst (sep : Char) (l : List Char) : Option (List Char × List Char) :=
  match l with
  | [] => none
  | c :: rest =>
    if c = sep then some ([], rest)
    else match splitFirst sep rest with
         | some (a, b) => some (c :: a, b)
         | none => none

/-- Lexicographic code-point comparison on character lists — how Python
compares `str` values. -/
def lexLe : List Char → List Char → Bool
  | [], _ => true
  | _ :: _, [] => false
  | a :: as, b :: bs =>
    if a.toNat < b.toNat then true
    else if a.toNat = b.toNat then lexLe as bs
    else false

/-- Python string comparison `a <= b`. -/
def strLeB (a b : String) : Bool := lexLe a.data b.data

/-- Sort a list of strings lexicographically (the model of
`sorted(..., key=lambda s: s.name)`). -/
def sortStr (l : List String) : List String :=
  List.insertionSort (fun a b => strLeB a b = true) l

/-- Remove duplicates, keeping the first occurrence. -/
def dedupStr (l : List String) : List String :=
  match l with
  | [] => []
  | x :: r => if x ∈ r then dedupStr r else x :: dedupStr r

/-- Parenthesis-balance scanner: `balAux l n` walks `l` with `n` open
parentheses, returning `none` on a premature `)`. -/
def balAux : List Char → Nat → Option Nat
  | [], n => some n
  | c :: r, n =>
    if c = '(' then balAux r (n + 1)
    else if c = ')' then
      match n with
      | 0 => none
      | m + 1 => balAux r m
    else balAux r n

/-- A character list has balanced parentheses. -/
def balancedP (l : List Char) : Bool := balAux l 0 = some 0

/-! ## Symbol Normalizer: `normalize_text` from `src/app/parsing.py`

```python
def normalize_text(s: str) -> str:
    s = s.strip()
    for k, v in UNICODE_MAP.items():
        s = s.replace(k, v)
    # Insert * between number and symbol if missing: 5x -> 5*x
    s = re.sub(r"(?<=\d)(?=[A-Za-z(])", "*", s)
    s = s.replace("==", "=")
    return s
```
-/

/-- Model of Python `s.replace(k, v)` for a single-character pattern `k`:
every occurrence of the character is replaced by `v`. -/
def ureplace (k : Char) (v : List Char) (l : List Char) : List Char :=
  match l with
  | [] => []
  | c :: r => (if c = k then v else [c]) ++ ureplace k v r

/-- The `UNICODE_MAP` table of `parsing.py`, applied in insertion order.
Keys are written with `Char.ofNat` code points:
0xD7 ×, 0xB7 ·, 0x2219 ∙, 0xF7 ÷, 0x2212 −, 0x2014 —, 0x221A √, 0x3C0 π. -/
def unicodeAll (l : List Char) : List Char :=
  ureplace (Char.ofNat 0x3C0) ['p', 'i']
    (ureplace (Char.ofNat 0x221A) ['s', 'q', 'r', 't']
      (ureplace (Char.ofNat 0x2014) ['-']
        (ureplace (Char.ofNat 0x2212) ['-']
          (ureplace (Char.ofNat 0xF7) ['/']
            (ureplace (Char.ofNat 0x2219) ['*']
              (ureplace (Char.ofNat 0xB7) ['*']
                (ureplace (Char.ofNat 0xD7) ['*'] l)))))))

/-- Is this character in the class `[A-Za-z(]` of the insertion regex? -/
def isAlphaParen (c : Char) : Bool :=
  (('A' ≤ c && c ≤ 'Z') || ('a' ≤ c && c ≤ 'z')) || c = '('

/-- Is this character an ASCII digit `\d`? -/
def isDigitC (c : Char) : Bool := '0' ≤ c && c ≤ '9'

/-- Model of `re.sub(r"(?<=\d)(?=[A-Za-z(])", "*", s)`: insert `*` at every
position with a digit immediately to the left and a letter or `(`
immediately to the right. -/
def insertStar (l : List Char) : List Char :=
  match l with
  | [] => []
  | [a] => [a]
  | a :: b :: r =>
    if isDigitC a && isAlphaParen b then a :: '*' :: insertStar (b :: r)
    else a :: insertStar (b :: r)

/-- Model of Python `s.replace("==", "=")`: non-overlapping left-to-right
replacement of the two-character pattern. -/
def collapseEq : List Char → List Char
  | [] => []
  | [c] => [c]
  | a :: b :: r =>
    if a = '=' ∧ b = '=' then '=' :: collapseEq r
    else a :: collapseEq (b :: r)

/-- `normalize_text` from `src/app/parsing.py`. -/
def normalize_text (l : List Char) : List Char :=
  collapseEq (insertStar (unicodeAll (pstrip l)))

example : normalize_text "5x".data = "5*x".data := by decide
example : normalize_text "2(x+1)".data = "2*(x+1)".data := by decide
example : normalize_text "===".data = "==".data := by decide
example : normalize_text "==".data = "=".data := by decide

/-! ## Operation Detector: `detect_operation` from `src/app/sympy_ollama_tutor.py`

```python
def detect_operation(text: str) -> str:
    t = text.strip().lower()
    if '=' in text and not text.strip().startswith(('diff', 'd/d', 'integrate', 'int')):
        return 'solve_equation'
    if re.search(r'\b(d/d|deriv|differentiat|prime|\'\')\b', t) or t.startswith('d/d'):
        return 'differentiate'
    if 'integrate' in t or '∫' in t or re.search(r'\bint\b', t):
        return 'integrate'
    if 'limit' in t or 'lim' in t:
        return 'limit'
    if 'simplify' in t or 'simplify(' in t:
        return 'simplify'
    if 'factor' in t:
        return 'factor'
    return 'simplify'
```
-/

/-- Regex word character `\w` (ASCII model). -/
def wordCh (c : Char) : Bool := c.isAlphanum || c = '_'

/-- Wordness of the character at index `i` (out of range counts as non-word). -/
def wordAt (s : List Char) (i : Nat) : Bool :=
  match s.get? i with
  | some c => wordCh c
  | none => false

/-- Regex `\b` holds between indices `i-1` and `i` iff their wordness differs
(a virtual non-word character stands before index 0). -/
def boundaryAt (s : List Char) (i : Nat) : Bool :=
  match i with
  | 0 => wordAt s 0
  | j + 1 => wordAt s j != wordAt s (j + 1)

/-- Model of `re.search(r"\bP\b", s)` for a literal alternative `P`. -/
def wbSearch (pat : List Char) (s : List Char) : Bool :=
  (List.range (s.length + 1)).any
    (fun i => pat.isPrefixOf (s.drop i) && boundaryAt s i && boundaryAt s (i + pat.length))

/-- The derivative-cue regex `\b(d/d|deriv|differentiat|prime|'')\b`
(the last alternative is two apostrophe characters, code point 39). -/
def derivCue (t : List Char) : Bool :=
  wbSearch "d/d".data t || wbSearch "deriv".data t || wbSearch "differentiat".data t ||
    wbSearch "prime".data t || wbSearch [Char.ofNat 39, Char.ofNat 39] t

/-- `text.strip().startswith(('diff', 'd/d', 'integrate', 'int'))`. -/
def startsDetPrefixes (st : List Char) : Bool :=
  "diff".data.isPrefixOf st || "d/d".data.isPrefixOf st ||
    "integrate".data.isPrefixOf st || "int".data.isPrefixOf st

/-- `detect_operation` from `src/app/sympy_ollama_tutor.py`.  The integral
glyph is code point 0x222B. -/
def detect_operation (text : List Char) : String :=
  let t := (pstrip text).map Char.toLower
  if hasChar '=' text && !startsDetPrefixes (pstrip text) then "solve_equation"
  else if derivCue t || "d/d".data.isPrefixOf t then "differentiate"
  else if containsSub "integrate".data t || hasChar (Char.ofNat 0x222B) t ||
      wbSearch "int".data t then "integrate"
  else if containsSub "limit".data t || containsSub "lim".data t then "limit"
  else if containsSub "simplify".data t || containsSub "simplify(".data t then "simplify"
  else if containsSub "factor".data t then "factor"
  else "simplify"

example : detect_operation "simplify x=5".data = "solve_equation" := by decide
example : detect_operation "factor and simplify x".data = "simplify" := by decide
example : detect_operation "integrate((x),y)(".data = "integrate" := by decide
example : detect_operation "d/dx sin(x)".data = "differentiate" := by decide


/-! ## Exact rational numbers

`ℚ` arithmetic does not evaluate inside the kernel, so rationals are given a
small executable implementation: a `Frac` is a normalized fraction (positive
denominator, coprime, zero is `0/1`); every operation renormalizes, so
structural equality coincides with equality of rational values. -/

structure Frac where
  num : ℤ
  den : ℕ
  deriving DecidableEq, Repr

/-- Build the normalized fraction `n / d` (a zero denominator, which no
reachable computation produces, maps to 0). -/
def fmk (n d : ℤ) : Frac :=
  if d = 0 then ⟨0, 1⟩
  else
    let s : ℤ := if d < 0 then -1 else 1
    let n2 := s * n
    let d2 := (s * d).toNat
    let g := Nat.gcd n2.natAbs d2
    ⟨n2 / (g : ℤ), d2 / g⟩

def fadd (a b : Frac) : Frac := fmk (a.num * b.den + b.num * a.den) (a.den * b.den)
def fneg (a : Frac) : Frac := ⟨-a.num, a.den⟩
def fsub (a b : Frac) : Frac := fadd a (fneg b)
def fmul (a b : Frac) : Frac := fmk (a.num * b.num) (a.den * b.den)
def fdiv (a b : Frac) : Frac := fmk (a.num * b.den) (a.den * b.num)
def fofInt (n : ℤ) : Frac := ⟨n, 1⟩

instance : Add Frac := ⟨fadd⟩
instance : Sub Frac := ⟨fsub⟩
instance : Mul Frac := ⟨fmul⟩
instance : Div Frac := ⟨fdiv⟩
instance : Neg Frac := ⟨fneg⟩
instance (n : Nat) : OfNat Frac n := ⟨⟨n, 1⟩⟩

/-- Perfect-square root of a natural number (exact), by search. -/
def natSqrt? (n : Nat) : Option Nat :=
  (List.range (n + 1)).find? (fun k => k * k = n)

/-- Exact square root in `Frac`; `none` when the value is not a square. -/
def sqrtF (q : Frac) : Option Frac :=
  if q.num < 0 then none
  else
    match natSqrt? q.num.toNat, natSqrt? q.den with
    | some a, some b => some ⟨(a : ℤ), b⟩
    | _, _ => none

/-! ## Polynomials over `Frac`: concrete model of the SymPy engine fragment

The external SymPy engine is outside the repository; the claims exercise it
only on univariate polynomials with rational coefficients, so that fragment
is modelled concretely.  A polynomial is its little-endian coefficient list
(`index i` = coefficient of `var^i`). -/

abbrev PolyF := List Frac

/-- Remove trailing zero coefficients. -/
def ptrim (p : PolyF) : PolyF :=
  (p.reverse.dropWhile (fun c => c.num = 0)).reverse

/-- Coefficient of `var^i` (0 beyond the list). -/
def pcoeff (p : PolyF) (i : Nat) : Frac := p.getD i 0

def padd : PolyF → PolyF → PolyF
  | [], q => q
  | p, [] => p
  | a :: p, b :: q => (a + b) :: padd p q

def pscale (c : Frac) (p : PolyF) : PolyF := p.map (fun a => c * a)

def psub (p q : PolyF) : PolyF := padd p (pscale (-1) q)

def pmul : PolyF → PolyF → PolyF
  | [], _ => []
  | a :: p, q => padd (pscale a q) ((0 : Frac) :: pmul p q)

def ppow (p : PolyF) : Nat → PolyF
  | 0 => [1]
  | n + 1 => pmul p (ppow p n)

/-- Degree of the polynomial; `none` for the zero polynomial (where SymPy
reports `-oo`). -/
def pdeg (p : PolyF) : Option Nat :=
  match ptrim p with
  | [] => none
  | l => some (l.length - 1)

/-- Decimal digits of a natural number (fuel-based). -/
def natDigs : Nat → Nat → List Char
  | 0, _ => []
  | fuel + 1, n =>
    if n < 10 then [Char.ofNat (48 + n)]
    else natDigs fuel (n / 10) ++ [Char.ofNat (48 + n % 10)]

def natChars (n : Nat) : List Char := natDigs (n + 1) n

def intChars (i : ℤ) : List Char :=
  if i < 0 then '-' :: natChars i.natAbs else natChars i.natAbs

/-- Decimal rendering of a `Frac`, the model of SymPy `str` on rational
numbers (`"4"`, `"-8"`, `"1/2"`). -/
def qStr (q : Frac) : String :=
  String.mk (intChars q.num ++ (if q.den = 1 then [] else '/' :: natChars q.den))

example : qStr (4 : Frac) = "4" := by decide
example : qStr (fdiv (-8) 2) = "-4" := by decide
example : sqrtF (1 : Frac) = some 1 := by decide
example : pdeg [(3 : Frac), 2] = some 1 := by decide
example : pdeg (psub [(3 : Frac), 2] [(11 : Frac)]) = some 1 := by decide

/-! ## Expression trees and the modelled `sympify`

`sympify` parses a query string into a SymPy expression.  The model parses
the arithmetic fragment the repository exercises (numbers, symbols,
`+ - * / ^ **`, parentheses; `^` is exponentiation) into an expression tree,
and fails — as SymPy raises `SympifyError` — on unbalanced parentheses and
unparseable text. -/

inductive PExpr where
  | num (q : Frac)
  | sym (name : String)
  | add (a b : PExpr)
  | sub (a b : PExpr)
  | mul (a b : PExpr)
  | div (a b : PExpr)
  | pow (a b : PExpr)
  | neg (a : PExpr)
  deriving DecidableEq, Repr

/-- Free symbol names of an expression, in traversal order with duplicates. -/
def freeVars : PExpr → List String
  | .num _ => []
  | .sym s => [s]
  | .add a b | .sub a b | .mul a b | .div a b | .pow a b => freeVars a ++ freeVars b
  | .neg a => freeVars a

/-- `eq.free_symbols` sorted by name — the model of
`sorted(list(eq.free_symbols), key=lambda s: s.name)`. -/
def sortedFreeVars (l : List String) : List String := sortStr (dedupStr l)

/-- Convert an expression to a polynomial in the single variable `v`;
`none` when the expression is not such a polynomial (other symbols, symbolic
exponents, division by a non-constant, …). -/
def toPolyIn (v : String) : PExpr → Option PolyF
  | .num q => some [q]
  | .sym s => if s = v then some [0, 1] else none
  | .add a b => do pure (padd (← toPolyIn v a) (← toPolyIn v b))
  | .sub a b => do pure (psub (← toPolyIn v a) (← toPolyIn v b))
  | .mul a b => do pure (pmul (← toPolyIn v a) (← toPolyIn v b))
  | .div a b => do
      let x ← toPolyIn v a
      let y ← toPolyIn v b
      match ptrim y with
      | [c] => pure (pscale (fdiv 1 c) x)
      | _ => none
  | .pow a b =>
      match b with
      | .num q =>
        if q.den = 1 && 0 ≤ q.num then do pure (ppow (← toPolyIn v a) q.num.toNat)
        else none
      | _ => none
  | .neg a => do pure (pscale (-1) (← toPolyIn v a))

/-- Tokens of the arithmetic fragment. -/
inductive Tok where
  | num (n : Nat)
  | id (s : String)
  | plus | minus | star | slash | caret | lparen | rparen | comma
  deriving DecidableEq, Repr

def isLetterC (c : Char) : Bool :=
  ('A' ≤ c && c ≤ 'Z') || ('a' ≤ c && c ≤ 'z') || c = '_'

def isIdentC (c : Char) : Bool := isLetterC c || isDigitC c

def digitsVal (l : List Char) : Nat :=
  l.foldl (fun acc c => acc * 10 + (c.toNat - 48)) 0

/-- Tokenizer (fuel-based; fuel `length + 1` always suffices since every
step consumes at least one character). -/
def tokenize : Nat → List Char → Except String (List Tok)
  | _, [] => .ok []
  | 0, _ => .error "tokenizer out of fuel"
  | fuel + 1, c :: r =>
    if isWsC c then tokenize fuel r
    else if isDigitC c then
      match tokenize fuel ((c :: r).dropWhile isDigitC) with
      | .ok ts => .ok (Tok.num (digitsVal ((c :: r).takeWhile isDigitC)) :: ts)
      | .error e => .error e
    else if isLetterC c then
      match tokenize fuel ((c :: r).dropWhile isIdentC) with
      | .ok ts => .ok (Tok.id (String.mk ((c :: r).takeWhile isIdentC)) :: ts)
      | .error e => .error e
    else if c = '*' then
      match r with
      | '*' :: r2 =>
        match tokenize fuel r2 with
        | .ok ts => .ok (Tok.caret :: ts)
        | .error e => .error e
      | _ =>
        match tokenize fuel r with
        | .ok ts => .ok (Tok.star :: ts)
        | .error e => .error e
    else
      let tok? : Option Tok :=
        if c = '+' then some Tok.plus
        else if c = '-' then some Tok.minus
        else if c = '/' then some Tok.slash
        else if c = '^' then some Tok.caret
        else if c = '(' then some Tok.lparen
        else if c = ')' then some Tok.rparen
        else if c = ',' then some Tok.comma
        else none
      match tok? with
      | some t =>
        match tokenize fuel r with
        | .ok ts => .ok (t :: ts)
        | .error e => .error e
      | none => .error "unsupported character"

mutual

/-- `expr := term (("+" | "-") term)*` -/
def parseE : Nat → List Tok → Except String (PExpr × List Tok)
  | 0, _ => .error "expression too deeply nested"
  | fuel + 1, ts => do
    let (t, rest) ← parseT fuel ts
    parseEL fuel t rest

def parseEL : Nat → PExpr → List Tok → Except String (PExpr × List Tok)
  | 0, _, _ => .error "expression too deeply nested"
  | fuel + 1, acc, ts =>
    match ts with
    | Tok.plus :: r => do
        let (t, rest) ← parseT fuel r
        parseEL fuel (PExpr.add acc t) rest
    | Tok.minus :: r => do
        let (t, rest) ← parseT fuel r
        parseEL fuel (PExpr.sub acc t) rest
    | _ => .ok (acc, ts)

/-- `term := unary (("*" | "/") unary)*` -/
def parseT : Nat → List Tok → Except String (PExpr × List Tok)
  | 0, _ => .error "expression too deeply nested"
  | fuel + 1, ts => do
    let (u, rest) ← parseU fuel ts
    parseTL fuel u rest

def parseTL : Nat → PExpr → List Tok → Except String (PExpr × List Tok)
  | 0, _, _ => .error "expression too deeply nested"
  | fuel + 1, acc, ts =>
    match ts with
    | Tok.star :: r => do
        let (u, rest) ← parseU fuel r
        parseTL fuel (PExpr.mul acc u) rest
    | Tok.slash :: r => do
        let (u, rest) ← parseU fuel r
        parseTL fuel (PExpr.div acc u) rest
    | _ => .ok (acc, ts)

/-- `unary := ("+" | "-") unary | power` -/
def parseU : Nat → List Tok → Except String (PExpr × List Tok)
  | 0, _ => .error "expression too deeply nested"
  | fuel + 1, ts =>
    match ts with
    | Tok.minus :: r => do
        let (u, rest) ← parseU fuel r
        .ok (PExpr.neg u, rest)
    | Tok.plus :: r => parseU fuel r
    | _ => parseP fuel ts

/-- `power := atom ("^" unary)?` (right-associative exponent) -/
def parseP : Nat → List Tok → Except String (PExpr × List Tok)
  | 0, _ => .error "expression too deeply nested"
  | fuel + 1, ts => do
    let (a, rest) ← parseA fuel ts
    match rest with
    | Tok.caret :: r => do
        let (e, rest2) ← parseU fuel r
        .ok (PExpr.pow a e, rest2)
    | _ => .ok (a, rest)

/-- `atom := number | identifier | "(" expr ")"` -/
def parseA : Nat → List Tok → Except String (PExpr × List Tok)
  | 0, _ => .error "expression too deeply nested"
  | fuel + 1, ts =>
    match ts with
    | Tok.num n :: r => .ok (PExpr.num (fofInt n), r)
    | Tok.id s :: r => .ok (PExpr.sym s, r)
    | Tok.lparen :: r => do
        let (e, rest) ← parseE fuel r
        match rest with
        | Tok.rparen :: r2 => .ok (e, r2)
        | _ => .error "expected closing parenthesis"
    | _ => .error "invalid syntax"

end

deriving instance DecidableEq for Except

/-- Untagged parse of a whole string. -/
def sympifyRaw (s : List Char) : Except String PExpr :=
  if balancedP s then
    match tokenize (s.length + 1) s with
    | .error e => .error e
    | .ok ts =>
      match parseE (4 * ts.length + 8) ts with
      | .ok (e, []) => .ok e
      | .ok (_, _ :: _) => .error "invalid syntax"
      | .error e => .error e
  else .error "unbalanced parentheses"

/-- Tag for errors raised by the modelled `sympify`. -/
def sErrTag (m : String) : String := String.mk ("SympifyError: ".data ++ m.data)

/-- Modelled `sympy.sympify`: either an expression or a `SympifyError`
message (always non-empty). -/
def sympifyM (s : List Char) : Except String PExpr :=
  match sympifyRaw s with
  | .ok e => .ok e
  | .error m => .error (sErrTag m)

/-- Tag for failures of other modelled engine calls. -/
def engErrTag (m : String) : String := String.mk ("EngineError: ".data ++ m.data)

/-- Modelled `sympy.solve(Eq(l, r), var)`: rational roots of the polynomial
`l - r` in `var`, as decimal strings; equations outside the modelled
fragment fail (SymPy raising). -/
def solveM (l r : PExpr) (v : String) : Except String (List String) :=
  match toPolyIn v (PExpr.sub l r) with
  | none => .error (engErrTag "equation is outside the polynomial model fragment")
  | some p =>
    match ptrim p with
    | [] => .ok []
    | [_] => .ok []
    | [c, b] => .ok [qStr (fdiv (fneg c) b)]
    | [c, b, a] =>
      match sqrtF (fsub (fmul b b) (fmul (fmul (4 : Frac) a) c)) with
      | some s =>
        if s.num = 0 then .ok [qStr (fdiv (fneg b) (fmul 2 a))]
        else .ok [qStr (fdiv (fsub (fneg b) s) (fmul 2 a)),
                  qStr (fdiv (fadd (fneg b) s) (fmul 2 a))]
      | none => .error (engErrTag "irrational or non-real roots are outside the model fragment")
    | _ => .error (engErrTag "degree above two is outside the model fragment")

example : sympifyM "2*x + 3".data =
    .ok (PExpr.add (PExpr.mul (PExpr.num 2) (PExpr.sym "x")) (PExpr.num 3)) := by decide
example : (sympifyM "(x + 1".data).isOk = false := by decide
example : solveM (PExpr.add (PExpr.mul (PExpr.num 2) (PExpr.sym "x")) (PExpr.num 3))
    (PExpr.num 11) "x" = .ok ["4"] := by decide

/-! ## Step Explainers: `src/app/explain.py`

`explain_linear` and `explain_quadratic` receive an equation whose two sides
are SymPy expressions; the claims exercise them on rational polynomials in
the chosen variable, so the sides are embedded as `PolyF` values.  Each step
record of the Python code is an f-string embedding computed sub-expressions;
a step is modelled as a constructor carrying exactly those computed values.

```python
def explain_linear(eq, var):
    steps = []
    lhs, rhs = eq.lhs, eq.rhs
    var_part   = lambda e: e - e.as_independent(var, as_Add=True)[0]
    const_part = lambda e: e.as_independent(var, as_Add=True)[0]
    A = simplify(var_part(lhs) - var_part(rhs))        # should be k*var
    B = simplify(const_part(rhs) - const_part(lhs))    # constants on the right
    steps.append(f"Move variable terms left and constants right: ...")
    coeff = A.as_coefficient(var)
    if coeff is None:
        coeff = simplify(A/var)
    if simplify(coeff - 1) != 0:
        steps.append(f"Divide both sides by ...")
    else:
        steps.append(f"Variable already isolated: ...")
    return steps
```
-/

inductive LinStep where
  /-- "Move variable terms left and constants right: … → A = B" -/
  | moveTerms (A : PolyF) (B : Frac)
  /-- "Divide both sides by coeff: … → var = value" -/
  | divideBy (coeff : Frac) (value : Frac)
  /-- "Variable already isolated: var = value" -/
  | isolated (value : Frac)
  deriving DecidableEq, Repr

/-- `e.as_independent(var, as_Add=True)[0]`: the part of the polynomial free
of the variable, i.e. its constant term. -/
def constPart (p : PolyF) : Frac := pcoeff p 0

/-- `e - e.as_independent(var, as_Add=True)[0]`. -/
def varPart (p : PolyF) : PolyF := psub p [constPart p]

/-- `A.as_coefficient(var)`: `some k` exactly when `A = k * var` with
`k ≠ 0`, the shape arising for every degree-1 equation. -/
def asCoefficient (p : PolyF) : Option Frac :=
  match ptrim p with
  | [z, k] => if z.num = 0 then some k else none
  | _ => none

/-- `explain_linear` from `src/app/explain.py` on polynomial sides.
The `coeff is None` fallback `simplify(A/var)` is modelled by the linear
coefficient of `A`; in the only calling context (`deg == 1`) `A` is always
`k * var`, so the fallback is never taken. -/
def explain_linear (lhs rhs : PolyF) : List LinStep :=
  let A := ptrim (psub (varPart lhs) (varPart rhs))
  let B := fsub (constPart rhs) (constPart lhs)
  let coeff := match asCoefficient A with
               | some k => k
               | none => pcoeff A 1
  if (fsub coeff 1).num ≠ 0 then
    [LinStep.moveTerms A B, LinStep.divideBy coeff (fdiv B coeff)]
  else
    [LinStep.moveTerms A B, LinStep.isolated B]

/-!
```python
def explain_quadratic(eq, var):
    steps = []
    expr = simplify(eq.lhs - eq.rhs)
    poly = Poly(expr, var)
    a, b, c = poly.all_coeffs()  # degree 2 → [a, b, c]
    steps.append(f"Standard form: ... with a=..., b=..., c=...")
    D = simplify(b**2 - 4*a*c)
    steps.append(f"Discriminant: ...")
    fact = factor(expr)
    if _s(fact) != _s(expr):
        steps.append(f"Factor the quadratic: ...")
        steps.append("Apply zero-product property: set each factor to 0 and solve.")
    else:
        steps.append("Use the quadratic formula: ...")
    return steps
```
-/

inductive QuadStep where
  /-- "Standard form: … with a=…, b=…, c=…" -/
  | standardForm (a b c : Frac)
  /-- "Discriminant: Δ = b² − 4ac = D" -/
  | discriminant (D : Frac)
  /-- "Factor the quadratic: … = a·(var − r1)·(var − r2)" with `r1 ≤ r2` -/
  | factored (a r1 r2 : Frac)
  /-- "Apply zero-product property: set each factor to 0 and solve." -/
  | zeroProduct
  /-- "Use the quadratic formula: …" -/
  | quadraticFormula
  deriving DecidableEq, Repr

/-- `explain_quadratic` from `src/app/explain.py` on polynomial sides.
`none` models the `ValueError` of the triple unpacking `a, b, c =
poly.all_coeffs()` when the difference of the sides has degree other than 2.
`factor` is modelled on the quadratic fragment: the printed form changes
exactly when the polynomial has rational roots and is not the pure square
monomial `a*var^2` (which SymPy prints unchanged). -/
def explain_quadratic (lhs rhs : PolyF) : Option (List QuadStep) :=
  match ptrim (psub lhs rhs) with
  | [c, b, a] =>
    let D := fsub (fmul b b) (fmul (fmul (4 : Frac) a) c)
    let head := [QuadStep.standardForm a b c, QuadStep.discriminant D]
    match sqrtF D with
    | some s =>
      if b.num = 0 ∧ c.num = 0 then some (head ++ [QuadStep.quadraticFormula])
      else
        some (head ++ [QuadStep.factored a (fdiv (fsub (fneg b) s) (fmul 2 a))
                        (fdiv (fadd (fneg b) s) (fmul 2 a)),
                       QuadStep.zeroProduct])
    | none => some (head ++ [QuadStep.quadraticFormula])
  | _ => none

/-!
```python
def explain_derivative(expr, var):
    steps = []
    if isinstance(expr, Add):
        steps.append("Linearity: d/dx(f + g) = ... Differentiate each term and add.")
    elif isinstance(expr, Mul):
        steps.append("Product rule: ... Differentiate each factor.")
    elif hasattr(expr, "args") and len(expr.args) == 1 and expr.args[0].has(var):
        steps.append("Chain rule: ...")
    else:
        steps.append("Differentiate using basic rules and simplify.")
    return steps
```

`explain_derivative` inspects a SymPy expression through its class
(`Add`/`Mul`) and its `args` tuple; the expression is embedded as a tree
mirroring those classes (`add`/`mul` are n-ary as in SymPy, `fn` is a
single-argument function application such as `sin(x)`). -/

inductive SymExpr where
  | intNum (n : ℤ)
  | sym (s : String)
  | add (args : List SymExpr)
  | mul (args : List SymExpr)
  | pow (b e : SymExpr)
  | fn (f : String) (arg : SymExpr)

mutual

/-- `expr.has(var)`: the expression contains the symbol. -/
def shas (v : String) : SymExpr → Bool
  | .intNum _ => false
  | .sym s => s = v
  | .add l => shasList v l
  | .mul l => shasList v l
  | .pow b e => shas v b || shas v e
  | .fn _ a => shas v a

def shasList (v : String) : List SymExpr → Bool
  | [] => false
  | a :: r => shas v a || shasList v r

end

/-- The SymPy `args` tuple of the expression. -/
def sympyArgs : SymExpr → List SymExpr
  | .intNum _ => []
  | .sym _ => []
  | .add l => l
  | .mul l => l
  | .pow b e => [b, e]
  | .fn _ a => [a]

def isAddE : SymExpr → Bool
  | .add _ => true
  | _ => false

def isMulE : SymExpr → Bool
  | .mul _ => true
  | _ => false

/-- The four advisory steps of `explain_derivative`. -/
inductive DerivStep where
  /-- "Linearity: d/dx(f + g) = … Differentiate each term and add." -/
  | linearity
  /-- "Product rule: … Differentiate each factor." -/
  | productRule
  /-- "Chain rule: d/dx f(g(x)) = …" -/
  | chainRule
  /-- "Differentiate using basic rules and simplify." -/
  | basicRules
  deriving DecidableEq, Repr

/-- `explain_derivative` from `src/app/explain.py`. -/
def explain_derivative (expr : SymExpr) (v : String) : List DerivStep :=
  if isAddE expr then [DerivStep.linearity]
  else if isMulE expr then [DerivStep.productRule]
  else
    match sympyArgs expr with
    | [a] => if shas v a then [DerivStep.chainRule] else [DerivStep.basicRules]
    | _ => [DerivStep.basicRules]

example : explain_linear [(3 : Frac), 2] [(11 : Frac)] =
    [LinStep.moveTerms [0, 2] 8, LinStep.divideBy 2 4] := by decide
example : explain_quadratic [(6 : Frac), -5, 1] [(0 : Frac)] =
    some [QuadStep.standardForm 1 (-5) 6, QuadStep.discriminant 1,
          QuadStep.factored 1 2 3, QuadStep.zeroProduct] := by decide
example : explain_derivative (SymExpr.fn "sin" (SymExpr.sym "x")) "x" =
    [DerivStep.chainRule] := by decide
example : explain_derivative
    (SymExpr.add [SymExpr.fn "sin" (SymExpr.sym "x"),
                  SymExpr.pow (SymExpr.sym "x") (SymExpr.intNum 2)]) "x" =
    [DerivStep.linearity] := by decide

/-! ## Dispatcher: `parse_and_solve` from `src/app/parsing.py`

`parse_and_solve` wraps its whole body in `try/except Exception`, returning
`{"ok": False, "detected": {}, "result": None, "steps": [], "warnings":
[str(e)]}` on any exception.  Crucially, the module `parsing.py` imports
only `re`, `Eq`, the `parse_expr` transformation names, the function table
`sin … Abs`, `sympify` and `solve`; the names `symbols`, `Poly`,
`simplify`, `explain_linear`, `explain_quadratic` and `explain_derivative`
used inside `parse_and_solve` are **not** imported, so evaluating them
raises `NameError` at run time.  Name resolution is embedded explicitly:
the module-level name table is the literal list below, and each use of an
unimported name produces the corresponding `NameError` message. -/

/-- The names defined at module level in `src/app/parsing.py` (imports and
module definitions). -/
def parsingNames : List String :=
  ["annotations", "re", "Eq", "parse_expr", "standard_transformations", "convert_xor",
   "implicit_multiplication_application", "function_exponentiation",
   "sin", "cos", "tan", "asin", "acos", "atan", "sqrt", "log", "exp", "pi", "E", "I", "Abs",
   "sympify", "solve",
   "parse_and_solve", "ALLOWED_FUNCS", "TRANSFORMS", "UNICODE_MAP", "normalize_text",
   "parse_math"]

/-- The `NameError` raised when evaluating a name absent from the module
table (Python message: `name '<n>' is not defined`). -/
def nameErrE {α : Type} (n : String) : Except String α :=
  .error (String.mk ("name ".data ++ n.data ++ " is not defined".data))

/-- The `detected` dictionary of a `parse_and_solve` result.  `degree` is
`some d` when the key is present (equation branch), whose value `d` is
itself an `Option` (`none` = Python `None`). -/
structure Detected where
  kind : Option String := none
  varName : Option String := none
  degree : Option (Option Nat) := none
  deriving DecidableEq, Repr

/-- A `parse_and_solve` result record. -/
structure PSResult where
  ok : Bool
  detected : Detected
  result : Option (List String)
  steps : List String
  warnings : List String
  deriving DecidableEq, Repr

/-- `sorted(list(eq.free_symbols), key=lambda s: s.name)` for the free
symbols of the two sides. -/
def eqSortedFree (l r : PExpr) : List String :=
  sortedFreeVars (freeVars l ++ freeVars r)

/-- The equation branch of `parse_and_solve` after both sides are
sympified (`eq = Eq(lhs, rhs)` built): variable choice, the dead degree
classification, step selection and the solve call. -/
def psEquationCont (eqL eqR : PExpr) : Except String PSResult :=
  match eqSortedFree eqL eqR with
  | [] => nameErrE "symbols"   -- `symbols("x")` raises: not imported
  | var :: _ =>
    -- Inner `try`: `Poly` is not imported, the NameError is caught by the
    -- inner `except Exception`, leaving `deg = None` on every input.
    let deg : Option Nat :=
      if parsingNames.contains "Poly" then
        (toPolyIn var (PExpr.sub eqL eqR)).bind pdeg
      else none
    if deg = some 1 then nameErrE "explain_linear"          -- not imported
    else if deg = some 2 then nameErrE "explain_quadratic"  -- not imported
    else do
      let sol ← solveM eqL eqR var
      pure { ok := true,
             detected := { kind := some "equation", varName := some var,
                           degree := some deg },
             result := some sol, steps := ["Solve symbolically and simplify."],
             warnings := [] }

/-- The body of the `try:` block of `parse_and_solve`; an `.error` is an
exception reaching the `except` handler. -/
def psBody (q : List Char) (task : String) : Except String PSResult :=
  if task = "differentiate" then
    -- Both sub-branches first evaluate `symbols(...)`; `symbols` is not
    -- imported in parsing.py, so a NameError is raised before any parsing.
    if hasChar ',' q then nameErrE "symbols" else nameErrE "symbols"
  else if hasChar '=' q || task = "solve" then
    match splitFirst '=' q with
    | some (l, r) => do
        let le ← sympifyM (pstrip l)
        let re2 ← sympifyM (pstrip r)
        psEquationCont le re2
    | none => do
        let e ← sympifyM q
        psEquationCont e (PExpr.num 0)
  else do
    let _ ← sympifyM q
    nameErrE "simplify"   -- `simplify(expr)` raises: not imported

/-- `parse_and_solve` from `src/app/parsing.py`. -/
def parse_and_solve (query task : String) : PSResult :=
  match psBody query.data task with
  | .ok r => r
  | .error e =>
    { ok := false, detected := {}, result := none, steps := [], warnings := [e] }

example : parse_and_solve "2*x + 3 = 11" "auto" =
    { ok := true,
      detected := { kind := some "equation", varName := some "x", degree := some none },
      result := some ["4"], steps := ["Solve symbolically and simplify."],
      warnings := [] } := by decide
example : (parse_and_solve "((x + 1 = 5" "auto").ok = false := by decide
example : (parse_and_solve "2 + 2" "auto").warnings =
    ["name simplify is not defined"] := by decide

/-! ## Candidate-Line Selector: `extract_math_from_text` from `src/app/ocr.py`

```python
def extract_math_from_text(raw_text: str) -> str:
    if not raw_text:
        return ""
    norm_map = { ...unicode glyphs... }
    s = raw_text
    for k, v in norm_map.items():
        s = s.replace(k, v)
    s = re.sub(r'(?i)\b(?:solve(?:\s+for)?|calculate|find|evaluate|what is)\b', ' ', s)
    lines = [ln.strip() for ln in s.splitlines()]
    candidates = []
    for ln in lines:
        if not ln: continue
        if re.fullmatch(r'[A-Za-z]\s*=', ln): continue
        if re.search(r'\d', ln) or ('=' in ln and re.search(r'[A-Za-z0-9]', ln.replace('=', ''))):
            candidates.append(ln); continue
        if re.search(r'[A-Za-z].*[\+\-\*/\^()]', ln) or re.search(r'[\+\-\*/\^()].*[A-Za-z]', ln):
            candidates.append(ln); continue
    for ln in candidates:
        if '=' in ln and re.search(r'\d', ln):
            chosen = ln; break
    else:
        chosen = None
        for ln in candidates:
            if re.search(r'[\d\+\-\*/\^()=]', ln):
                chosen = ln; break
    if not chosen:
        cleaned = re.sub(r'[^0-9A-Za-z=+\-*/^()., ]', '', s)
        chosen = cleaned.strip()
    chosen = chosen.strip()
    chosen = re.sub(r'\b([A-Za-z])\s*=$', '', chosen).strip()
    chosen = re.sub(r'(?<=\d)\s*\(', '*(', chosen)
    chosen = re.sub(r'(?<=[A-Za-z0-9\)])\s*(?=[A-Za-z0-9\(])', '', chosen)
    chosen = re.sub(r'\s+', '', chosen)
    return chosen
```
-/

/-- Regex class `[A-Za-z]` (no underscore). -/
def isAlphaAZ (c : Char) : Bool := ('A' ≤ c && c ≤ 'Z') || ('a' ≤ c && c ≤ 'z')

/-- The `norm_map` of `ocr.py` (same glyph table as `parsing.py`,
iterated in its own insertion order: − — × · ∙ ÷ √ π). -/
def ocrUnicodeAll (l : List Char) : List Char :=
  ureplace (Char.ofNat 0x3C0) ['p', 'i']
    (ureplace (Char.ofNat 0x221A) ['s', 'q', 'r', 't']
      (ureplace (Char.ofNat 0xF7) ['/']
        (ureplace (Char.ofNat 0x2219) ['*']
          (ureplace (Char.ofNat 0xB7) ['*']
            (ureplace (Char.ofNat 0xD7) ['*']
              (ureplace (Char.ofNat 0x2014) ['-']
                (ureplace (Char.ofNat 0x2212) ['-'] l)))))))

/-- Case-insensitive prefix match (the `(?i)` flag, ASCII lowering). -/
def ciPrefix : List Char → List Char → Bool
  | [], _ => true
  | _ :: _, [] => false
  | p :: pr, c :: cr => (p.toLower = c.toLower) && ciPrefix pr cr

/-- Trailing `\b` after a pattern ending in a word character: the next
character must be a non-word character or the end of input. -/
def bAfter (rest : List Char) : Bool :=
  match rest with
  | [] => true
  | c :: _ => !wordCh c

/-- Match length at the current position for the alternation
`solve(?:\s+for)?|calculate|find|evaluate|what is` (each alternative checked
with its trailing `\b`; the caller has already checked the leading `\b`).
For `solve(?:\s+for)?` the greedy optional group takes `\s+for` whenever the
whole of it matches with a boundary after, otherwise just `solve`. -/
def instrMatchLen (s : List Char) : Option Nat :=
  if ciPrefix "solve".data s then
    let rest := s.drop 5
    let wsn := (rest.takeWhile isWsC).length
    if wsn ≥ 1 && ciPrefix "for".data (rest.drop wsn) && bAfter (rest.drop (wsn + 3)) then
      some (5 + wsn + 3)
    else if bAfter rest then some 5
    else none
  else if ciPrefix "calculate".data s && bAfter (s.drop 9) then some 9
  else if ciPrefix "find".data s && bAfter (s.drop 4) then some 4
  else if ciPrefix "evaluate".data s && bAfter (s.drop 8) then some 8
  else if ciPrefix "what is".data s && bAfter (s.drop 7) then some 7
  else none

/-- Left-to-right scan of
`re.sub(r'(?i)\b(?:solve(?:\s+for)?|calculate|find|evaluate|what is)\b', ' ', s)`:
`prevWord` is the wordness of the previous character (boundary check); every
alternative starts and ends with a word character, so a match needs a
non-word predecessor and continues with a word predecessor. -/
def stripInstrGo : Nat → Bool → List Char → List Char
  | 0, _, s => s
  | _ + 1, _, [] => []
  | fuel + 1, prevWord, c :: r =>
    match (if !prevWord then instrMatchLen (c :: r) else none) with
    | some n => ' ' :: stripInstrGo fuel true (List.drop n (c :: r))
    | none => c :: stripInstrGo fuel (wordCh c) r

def stripInstr (s : List Char) : List Char := stripInstrGo (s.length + 1) false s

/-- Python `str.splitlines` on the newline characters the model supports. -/
def splitLinesGo : List Char → List Char → List (List Char)
  | acc, [] => [acc.reverse]
  | acc, c :: r =>
    if c = '\n' || c = '\r' then acc.reverse :: splitLinesGo [] r
    else splitLinesGo (c :: acc) r

def splitLines (l : List Char) : List (List Char) := splitLinesGo [] l

/-- `re.fullmatch(r'[A-Za-z]\s*=', ln)`: an answer-placeholder line. -/
def isPlaceholderLn (ln : List Char) : Bool :=
  match ln with
  | c :: rest => isAlphaAZ c && (rest.dropWhile isWsC = ['='])
  | [] => false

/-- Operator class `[\+\-\*/\^()]`. -/
def isOpC (c : Char) : Bool :=
  c = '+' || c = '-' || c = '*' || c = '/' || c = '^' || c = '(' || c = ')'

/-- `re.search(r'P.*Q', ln)`: some `p`-character strictly before some
`q`-character. -/
def someBefore (p q : Char → Bool) : List Char → Bool
  | [] => false
  | c :: r => (p c && r.any q) || someBefore p q r

/-- The candidate filter of step 4 of `extract_math_from_text`. -/
def ocrIsCandidate (ln : List Char) : Bool :=
  ln ≠ [] && !isPlaceholderLn ln &&
    ((ln.any isDigitC ||
        (hasChar '=' ln && (ln.filter (fun c => c ≠ '=')).any (fun c => isAlphaAZ c || isDigitC c))) ||
      (someBefore isAlphaAZ isOpC ln || someBefore isOpC isAlphaAZ ln))

/-- Characters kept by the fallback cleaner `[^0-9A-Za-z=+\-*/^()., ]`. -/
def isAllowedMath (c : Char) : Bool :=
  isDigitC c || isAlphaAZ c || c = '=' || c = '+' || c = '-' || c = '*' || c = '/' ||
    c = '^' || c = '(' || c = ')' || c = '.' || c = ',' || c = ' '

/-- `re.sub(r'\b([A-Za-z])\s*=$', '', chosen)`: drop a trailing
single-letter-equals (with a word boundary before the letter). -/
def stripTrailingEq (l : List Char) : List Char :=
  match l.reverse with
  | '=' :: rest =>
    match rest.dropWhile isWsC with
    | a :: rest2 =>
      if isAlphaAZ a && (match rest2 with
                         | [] => true
                         | b :: _ => !wordCh b) then rest2.reverse
      else l
    | [] => l
  | _ => l

/-- `re.sub(r'(?<=\d)\s*\(', '*(', chosen)`. -/
def insStarParenGo : Nat → List Char → List Char
  | 0, s => s
  | _ + 1, [] => []
  | fuel + 1, c :: r =>
    if isDigitC c then
      match r.dropWhile isWsC with
      | '(' :: rest => c :: '*' :: '(' :: insStarParenGo fuel rest
      | _ => c :: insStarParenGo fuel r
    else c :: insStarParenGo fuel r

/-- `re.sub(r'(?<=[A-Za-z0-9\)])\s*(?=[A-Za-z0-9\(])', '', chosen)`: drop
whitespace runs between an alphanumeric/`)` and an alphanumeric/`(`. -/
def collapseInnerGo : Nat → List Char → List Char
  | 0, s => s
  | _ + 1, [] => []
  | fuel + 1, c :: r =>
    if isAlphaAZ c || isDigitC c || c = ')' then
      match r.dropWhile isWsC, (r.takeWhile isWsC).length with
      | d :: rest, _ + 1 =>
        if isAlphaAZ d || isDigitC d || d = '(' then
          c :: collapseInnerGo fuel (d :: rest)
        else c :: collapseInnerGo fuel r
      | _, _ => c :: collapseInnerGo fuel r
    else c :: collapseInnerGo fuel r

/-- `extract_math_from_text` from `src/app/ocr.py`. -/
def extract_math_from_text (raw : List Char) : List Char :=
  if raw = [] then []
  else
    let s := stripInstr (ocrUnicodeAll raw)
    let lines := (splitLines s).map pstrip
    let candidates := lines.filter ocrIsCandidate
    let chosen? :=
      match candidates.find? (fun ln => hasChar '=' ln && ln.any isDigitC) with
      | some c => some c
      | none => candidates.find? (fun ln => ln.any (fun c => isDigitC c || isOpC c || c = '='))
    let chosen :=
      match chosen? with
      | some c => c
      | none => pstrip (s.filter isAllowedMath)
    let c1 := pstrip chosen
    let c2 := pstrip (stripTrailingEq c1)
    let c3 := insStarParenGo (c2.length + 1) c2
    let c4 := collapseInnerGo (c3.length + 1) c3
    c4.filter (fun c => !isWsC c)

example : extract_math_from_text "y=".data = [] := by decide
example : extract_math_from_text "".data = [] := by decide
example : extract_math_from_text "Solve for y\n2y = 10\ny=".data = "2y=10".data := by decide
example : extract_math_from_text "2 (x+1) = 4".data = "2*(x+1)=4".data := by decide

/-! ## Tutor dispatcher: handlers and `analyze_and_solve` from
`src/app/sympy_ollama_tutor.py`

`analyze_and_solve` detects the operation, dispatches to a handler inside a
`try:`, and converts any exception into `{'error': str(e), 'traceback':
...}`.  The handlers delegate to SymPy (`solve`, `diff`, `integrate`,
`limit`, `simplify`, `factor`), modelled below on the polynomial fragment;
`_safe_sympify` is `sympifyM …|>.toOption`.  Python enumerates
`list(eq.free_symbols)` in an unspecified set order: the embedding takes
that order as an explicit argument `enum`, a function producing the
enumeration of the free-symbol set (theorems quantify over it). -/

/-- Simple parenthesized rendering of an expression — the model of SymPy
`str` on the payload fields (no claim inspects these strings). -/
def pexprStr : PExpr → String
  | .num q => qStr q
  | .sym s => s
  | .add a b => "(" ++ pexprStr a ++ " + " ++ pexprStr b ++ ")"
  | .sub a b => "(" ++ pexprStr a ++ " - " ++ pexprStr b ++ ")"
  | .mul a b => pexprStr a ++ "*" ++ pexprStr b
  | .div a b => pexprStr a ++ "/" ++ pexprStr b
  | .pow a b => pexprStr a ++ "^" ++ pexprStr b
  | .neg a => "-" ++ pexprStr a

def fpowNat (a : Frac) : Nat → Frac
  | 0 => 1
  | n + 1 => fmul a (fpowNat a n)

/-- Numeric evaluation of a constant expression (`none` on a symbol or a
division by zero, where SymPy produces `zoo`, a non-zero object). -/
def evalK : PExpr → Option Frac
  | .num q => some q
  | .sym _ => none
  | .add a b => do pure (fadd (← evalK a) (← evalK b))
  | .sub a b => do pure (fsub (← evalK a) (← evalK b))
  | .mul a b => do pure (fmul (← evalK a) (← evalK b))
  | .div a b => do
      let x ← evalK a
      let y ← evalK b
      if y.num = 0 then none else pure (fdiv x y)
  | .pow a b => do
      let x ← evalK a
      let y ← evalK b
      if y.den = 1 && 0 ≤ y.num then pure (fpowNat x y.num.toNat) else none
  | .neg a => do pure (fneg (← evalK a))

/-- Polynomial evaluation at a point. -/
def peval (p : PolyF) (x : Frac) : Frac :=
  p.foldr (fun c acc => fadd c (fmul x acc)) 0

/-- Formal derivative. -/
def pderiv (p : PolyF) : PolyF :=
  match p with
  | [] => []
  | _ :: t => t.mapIdx (fun i c => fmul (fofInt (i + 1)) c)

/-- Antiderivative with zero constant. -/
def pintegral (p : PolyF) : PolyF :=
  0 :: p.mapIdx (fun i c => fdiv c (fofInt (i + 1)))

/-- Rendering of a polynomial in `v` (model of SymPy printing; payload
only). -/
def polyStr (p : PolyF) (v : String) : String :=
  match ptrim p with
  | [] => "0"
  | l => String.intercalate " + "
      (l.mapIdx (fun i c =>
        if i = 0 then qStr c else qStr c ++ "*" ++ v ++ "^" ++ String.mk (natChars i)))

/-- Modelled `sp.diff` + `sp.simplify` pair (raw and simplified derivative
coincide on the fragment). -/
def diffEngine (expr : PExpr) (v : String) : Except String (String × String) :=
  if (freeVars expr).contains v = false then .ok ("0", "0")
  else
    match toPolyIn v expr with
    | some p => .ok (polyStr (pderiv p) v, polyStr (pderiv p) v)
    | none => .error (engErrTag "differentiation outside the model fragment")

/-- Modelled `sp.integrate`. -/
def integrateEngine (expr : PExpr) (v : String) : Except String String :=
  if (freeVars expr).contains v = false then
    .ok (pexprStr (PExpr.mul expr (PExpr.sym v)))
  else
    match toPolyIn v expr with
    | some p => .ok (polyStr (pintegral p) v)
    | none => .error (engErrTag "integration outside the model fragment")

/-- Modelled `sp.limit`. -/
def limitEngine (expr : PExpr) (v : String) (point : PExpr) : Except String String :=
  if (freeVars expr).contains v = false then .ok (pexprStr expr)
  else
    match toPolyIn v expr, evalK point with
    | some p, some a => .ok (qStr (peval p a))
    | _, _ => .error (engErrTag "limit outside the model fragment")

/-- A result dictionary of `analyze_and_solve`: an `error` entry on
failure, otherwise the handler dictionary (`operation`, optional `result`
list, remaining string entries as `payload`). -/
structure AOut where
  operation : Option String := none
  result : Option (List String) := none
  error : Option String := none
  payload : List (String × String) := []
  deriving DecidableEq, Repr

/-- `var = symbols[0]` of the tutor `solve_equation` handler: the head of
the Python `list(eq.free_symbols)` enumeration (`none` models the
`len(symbols) == 0` branch). -/
def tutorChosenVar (enumerated : List String) : Option String := enumerated.head?

/-- `solve_equation` from `src/app/sympy_ollama_tutor.py`. -/
def tutor_solve_equation (enum : List String → List String) (problem : List Char) :
    Except String AOut :=
  match splitFirst '=' problem with
  | none => .error "not enough values to unpack (expected 2, got 1)"
  | some (left, right) =>
    match (sympifyM left).toOption, (sympifyM right).toOption with
    | some L, some R =>
      let syms := enum (sortedFreeVars (freeVars L ++ freeVars R))
      match tutorChosenVar syms with
      | none =>
        -- no symbols: result is `str(simplify(L - R) == 0)`
        let isTrue0 : Bool :=
          match evalK (PExpr.sub L R) with
          | some d => d.num = 0
          | none => false
        .ok { operation := some "solve_equation",
              result := some [if isTrue0 then "True" else "False"],
              payload := [("lhs", pexprStr L), ("rhs", pexprStr R)] }
      | some v => do
        let sol ← solveM L R v
        pure { operation := some "solve_equation", result := some sol,
               payload := [("variable", v), ("lhs", pexprStr L), ("rhs", pexprStr R)] }
    | _, _ => .error "Couldnt parse equation parts with SymPy."

/-- `re.match(r'd/d([a-zA-Z])\s*(.*)', problem.strip())`: the variable and
the remainder (`.*` stops at a newline). -/
def ddRegexMatch (st : List Char) : Option (String × List Char) :=
  match st with
  | 'd' :: '/' :: 'd' :: c :: rest =>
    if isAlphaAZ c then
      some (String.mk [c], (rest.dropWhile isWsC).takeWhile (fun ch => ch ≠ '\n'))
    else none
  | _ => none

/-- `differentiate` from `src/app/sympy_ollama_tutor.py`. -/
def tutor_differentiate (enum : List String → List String) (problem : List Char) :
    Except String AOut :=
  match ddRegexMatch (pstrip problem) with
  | some (v, g2) =>
    match (sympifyM g2).toOption with
    | none => .error "Couldnt parse expression to differentiate."
    | some expr => do
        let ds ← diffEngine expr v
        pure { operation := some "differentiate",
               payload := [("expression", pexprStr expr), ("variable", v),
                           ("raw_derivative", ds.1), ("simplified_derivative", ds.2)] }
  | none =>
    match (sympifyM problem).toOption with
    | none => .error "Couldnt parse expression to differentiate."
    | some expr =>
      let syms := enum (sortedFreeVars (freeVars expr))
      let v := match syms with
               | s :: _ => s
               | [] => "x"
      do
        let ds ← diffEngine expr v
        pure { operation := some "differentiate",
               payload := [("expression", pexprStr expr), ("variable", v),
                           ("raw_derivative", ds.1), ("simplified_derivative", ds.2)] }

/-- Index of the last position (greedy `.*`) satisfying `p` below `n`. -/
def maxIdxSat (p : Nat → Bool) (n : Nat) : Option Nat :=
  (List.range n).foldl (fun acc i => if p i then some i else acc) none

/-- `re.match(r'integrate\((.*),\s*([a-zA-Z])\s*\)', s)` on the
space-stripped problem.  `re.match` anchors only the start, so trailing
characters after the closing parenthesis are ignored; the greedy `(.*)`
takes the largest split point. -/
def integrateRegexMatch (s : List Char) : Option (List Char × String) :=
  if "integrate(".data.isPrefixOf s then
    let body := s.drop 10
    match maxIdxSat
        (fun i => body.get? i = some ',' &&
          (match body.get? (i + 1) with
           | some c => isAlphaAZ c
           | none => false) &&
          body.get? (i + 2) = some ')') body.length with
    | some i =>
      match body.get? (i + 1) with
      | some c => some (body.take i, String.mk [c])
      | none => none
    | none => none
  else none

/-- `integrate` from `src/app/sympy_ollama_tutor.py`. -/
def tutor_integrate (enum : List String → List String) (problem : List Char) :
    Except String AOut :=
  match integrateRegexMatch (problem.filter (fun c => c ≠ ' ')) with
  | some (g1, v) =>
    match (sympifyM g1).toOption with
    | none => .error "Couldnt parse expression to integrate."
    | some expr => do
        let ig ← integrateEngine expr v
        pure { operation := some "integrate",
               payload := [("expression", pexprStr expr), ("variable", v), ("integral", ig)] }
  | none =>
    match (sympifyM problem).toOption with
    | none => .error "Couldnt parse expression to integrate."
    | some expr =>
      let syms := enum (sortedFreeVars (freeVars expr))
      let v := match syms with
               | s :: _ => s
               | [] => "x"
      do
        let ig ← integrateEngine expr v
        pure { operation := some "integrate",
               payload := [("expression", pexprStr expr), ("variable", v), ("integral", ig)] }

/-- `re.match(r'limit\((.*),\s*([a-zA-Z]),\s*(.*)\)', s)` on the
space-stripped problem (both `.*` greedy, trailing characters ignored). -/
def limitRegexMatch (s : List Char) : Option (List Char × String × List Char) :=
  if "limit(".data.isPrefixOf s then
    let body := s.drop 6
    match maxIdxSat
        (fun i => body.get? i = some ',' &&
          (match body.get? (i + 1) with
           | some c => isAlphaAZ c
           | none => false) &&
          body.get? (i + 2) = some ',') body.length with
    | some i =>
      match body.get? (i + 1) with
      | some c =>
        let rest := body.drop (i + 3)
        match maxIdxSat (fun j => rest.get? j = some ')') rest.length with
        | some j => some (body.take i, String.mk [c], rest.take j)
        | none => none
      | none => none
    | none => none
  else none

/-- `limit_handler` from `src/app/sympy_ollama_tutor.py`. -/
def tutor_limit (problem : List Char) : Except String AOut :=
  match limitRegexMatch (problem.filter (fun c => c ≠ ' ')) with
  | none => .error "Couldnt parse limit; expect limit(expr, x, a)."
  | some (g1, v, g3) =>
    match (sympifyM g1).toOption, (sympifyM g3).toOption with
    | some expr, some point => do
        let lv ← limitEngine expr v point
        pure { operation := some "limit",
               payload := [("expression", pexprStr expr), ("variable", v),
                           ("point", pexprStr point), ("limit", lv)] }
    | _, _ => .error "Couldnt parse limit arguments."

/-- `simplify_handler` from `src/app/sympy_ollama_tutor.py` (the modelled
`sp.simplify` never raises, printing the expression unchanged). -/
def tutor_simplify (problem : List Char) : Except String AOut :=
  match (sympifyM problem).toOption with
  | none => .error "Couldnt parse expression to simplify."
  | some expr =>
    .ok { operation := some "simplify",
          payload := [("expression", pexprStr expr), ("simplified", pexprStr expr)] }

/-- `factor_handler` from `src/app/sympy_ollama_tutor.py` (the modelled
`sp.factor` never raises, printing the expression unchanged). -/
def tutor_factor (problem : List Char) : Except String AOut :=
  match (sympifyM problem).toOption with
  | none => .error "Couldnt parse expression to factor."
  | some expr =>
    .ok { operation := some "factor",
          payload := [("expression", pexprStr expr), ("factored", pexprStr expr)] }

/-- `analyze_and_solve` from `src/app/sympy_ollama_tutor.py`:
`detect_operation` runs outside the `try:`; the dispatch and handler run
inside it, and any exception becomes `{'error': str(e), ...}`. -/
def analyze_and_solve (enum : List String → List String) (problem : List Char) : AOut :=
  let op := detect_operation problem
  let body : Except String AOut :=
    if op = "solve_equation" then tutor_solve_equation enum problem
    else if op = "differentiate" then tutor_differentiate enum problem
    else if op = "integrate" then tutor_integrate enum problem
    else if op = "limit" then tutor_limit problem
    else if op = "factor" then tutor_factor problem
    else tutor_simplify problem
  match body with
  | .ok r => r
  | .error e => { error := some e }

example : (analyze_and_solve (fun l => l) "integrate((x),y)(".data).error = none := by decide
example : (analyze_and_solve (fun l => l) "integrate((x),y)(".data).operation =
    some "integrate" := by decide
example : (analyze_and_solve (fun l => l) "((x + 1".data).error =
    some "Couldnt parse expression to simplify." := by decide
example : (analyze_and_solve (fun l => l) "2*x + 3 = 11".data).result = some ["4"] := by decide

/-! ## `solve_task` from `src/app/solver.py`

`solve_task` delegates every computation to `parse_math` and the SymPy
calls; the embedding is parameterized over that engine (`TaskEngine`), with
the SymPy objects at an abstract type `α`.  Two faithful quirks: the
unpacking `expr, kind = parse_math(req.query)` is swapped relative to
`parse_math`'s return `(kind, obj)`, so `expr` receives the kind string and
`kind` the SymPy object; and `req.vars or ["x"]` treats an empty list as
falsy.  `steps = []` is initialized and never appended; only the final
success response passes it. -/

structure TaskEngine (α : Type) where
  /-- `parse_math(query)` (raises = `.error`), returning `(kind, obj)`. -/
  parseMath : String → Except String (String × α)
  /-- `kind == "equation"` — SymPy `Eq`/expression compared to a string. -/
  eqKind : α → Bool
  /-- `str` of the SymPy object (for the `detected` dictionary). -/
  showObj : α → String
  /-- `list(solveset(expr, var, domain=S.Complexes))`, printed. -/
  solvesetC : String → String → Except String String
  /-- `list(solveset(Eq(expr, 0), var, domain=S.Complexes))`, printed. -/
  solvesetZero : String → String → Except String String
  simplifyE : String → Except String String
  diffE : String → String → Except String String
  integrateE : String → String → Except String String
  factorE : String → Except String String
  expandE : String → Except String String

structure SolveRequest where
  query : String
  task : String := "auto"
  vars : Option (List String) := none

/-- `SolveResponse` from `src/app/models.py` (the `detected` dictionary
split into its two possible entries). -/
structure SolveResponse where
  ok : Bool
  task : String
  detectedKind : Option String := none
  detectedQuery : Option String := none
  result : Option String := none
  steps : Option (List String) := none
  warnings : Option (List String) := none
  deriving DecidableEq, Repr

/-- The `try:` body of `solve_task`. -/
def stBody {α : Type} (eng : TaskEngine α) (req : SolveRequest) :
    Except String SolveResponse := do
  let pk ← eng.parseMath req.query
  let expr := pk.1
  let kind := pk.2
  let varNames :=
    match req.vars with
    | none => ["x"]
    | some [] => ["x"]
    | some l => l
  let v0 := match varNames with
            | v :: _ => v
            | [] => "x"
  let mkOkResp : String → SolveResponse := fun r =>
    { ok := true, task := req.task, detectedKind := some (eng.showObj kind),
      detectedQuery := some expr, result := some r, steps := some [] }
  if req.task = "auto" then
    if eng.eqKind kind then do
      let r ← eng.solvesetC expr v0
      pure (mkOkResp r)
    else do
      let r ← eng.simplifyE expr
      pure (mkOkResp r)
  else if req.task = "solve" then
    if eng.eqKind kind then do
      let r ← eng.solvesetC expr v0
      pure (mkOkResp r)
    else do
      let r ← eng.solvesetZero expr v0
      pure (mkOkResp r)
  else if req.task = "simplify" then do
    let r ← eng.simplifyE expr
    pure (mkOkResp r)
  else if req.task = "differentiate" then do
    let r ← eng.diffE expr v0
    pure (mkOkResp r)
  else if req.task = "integrate" then do
    let r ← eng.integrateE expr v0
    pure (mkOkResp r)
  else if req.task = "factor" then do
    let r ← eng.factorE expr
    pure (mkOkResp r)
  else if req.task = "expand" then do
    let r ← eng.expandE expr
    pure (mkOkResp r)
  else
    pure { ok := false, task := req.task, detectedKind := some (eng.showObj kind),
           result := none,
           warnings := some [String.mk ("Unknown task: ".data ++ req.task.data)] }

/-- `solve_task` from `src/app/solver.py`. -/
def solve_task {α : Type} (eng : TaskEngine α) (req : SolveRequest) : SolveResponse :=
  match stBody eng req with
  | .ok r => r
  | .error e =>
    { ok := false, task := req.task, result := none, warnings := some [e] }

/-- A concrete engine instance (used only to evaluate `solve_task` at
closed inputs). -/
def sampleEngine : TaskEngine Unit :=
  { parseMath := fun _ => .ok ("equation", ()),
    eqKind := fun _ => false,
    showObj := fun _ => "Eq(x, 1)",
    solvesetC := fun _ _ => .ok "[1]",
    solvesetZero := fun _ _ => .ok "[0]",
    simplifyE := fun e => .ok e,
    diffE := fun _ _ => .ok "1",
    integrateE := fun _ _ => .ok "x",
    factorE := fun e => .ok e,
    expandE := fun e => .ok e }

example : (solve_task sampleEngine { query := "x = 1" }).steps = some [] := by decide
example : (solve_task sampleEngine { query := "x", task := "bogus" }).steps = none := by decide

/-! # Theorems -/

/-- A bind followed by `pure` that produced `.ok` comes from an `.ok`. -/
theorem bindPure_ok {α β : Type} (x : Except String α) (f : α → β) (r : β)
    (h : Bind.bind x (fun a => pure (f a)) = Except.ok r) : ∃ a, x = .ok a ∧ r = f a := by
  cases hx : x with
  | error e => rw [hx] at h; simp [Bind.bind, Except.bind] at h
  | ok a =>
    rw [hx] at h
    simp only [Bind.bind, Except.bind, pure, Except.pure, Except.ok.injEq] at h
    exact ⟨a, rfl, h.symm⟩

/-- Every `.ok` result of `stBody` is either a success response carrying
`steps = []` or the unknown-task response carrying no steps. -/
theorem stBody_ok_shape {α : Type} (eng : TaskEngine α) (req : SolveRequest)
    (r : SolveResponse) (h : stBody eng req = .ok r) :
    (r.ok = true ∧ r.steps = some []) ∨ (r.ok = false ∧ r.steps = none) := by
  unfold stBody at h
  cases hp : eng.parseMath req.query with
  | error e => rw [hp] at h; simp [Bind.bind, Except.bind] at h
  | ok pk =>
    rw [hp] at h
    simp only [Bind.bind, Except.bind] at h
    repeat' split at h
    all_goals
      first
        | exact Except.noConfusion h
        | (simp only [pure, Except.pure, Except.ok.injEq] at h
           first
             | (subst h; exact Or.inl ⟨rfl, rfl⟩)
             | (subst h; exact Or.inr ⟨rfl, rfl⟩))

/-- C10: for every request (any query, task and variable list) and every
engine behavior, `solve_task` returns a response whose `steps` field is the
empty list on success and unset (`None`) on failure: no code path of
`solve_task` ever appends a derivation step. -/
theorem solve_task_steps_never_populated {α : Type} (eng : TaskEngine α)
    (req : SolveRequest) :
    ((solve_task eng req).ok = true → (solve_task eng req).steps = some []) ∧
    ((solve_task eng req).ok = false → (solve_task eng req).steps = none) := by
  unfold solve_task
  cases hb : stBody eng req with
  | error e => exact ⟨fun hok => absurd hok (by simp), fun _ => rfl⟩
  | ok r =>
    rcases stBody_ok_shape eng req r hb with ⟨h1, h2⟩ | ⟨h1, h2⟩
    · exact ⟨fun _ => h2, fun hok => absurd (h1.symm.trans hok) (by simp)⟩
    · exact ⟨fun hok => absurd (h1.symm.trans hok) (by simp), fun _ => h2⟩

/-- Witness for C10 at a concrete engine and two concrete requests. -/
theorem solve_task_steps_never_populated_witness :
    ((solve_task sampleEngine { query := "x = 1" }).steps = some []) ∧
    ((solve_task sampleEngine { query := "x", task := "bogus" }).steps = none) :=
  ⟨(solve_task_steps_never_populated sampleEngine { query := "x = 1" }).1 (by decide),
   (solve_task_steps_never_populated sampleEngine { query := "x", task := "bogus" }).2
     (by decide)⟩

/-! ## Normalizer lemmas (used by the idempotence and implicit-multiplication
claims) -/

/-- Two adjacent `=` characters occur somewhere. -/
def hasDoubleEq : List Char → Bool
  | a :: b :: r => (a = '=' && b = '=') || hasDoubleEq (b :: r)
  | _ => false

/-- No digit is immediately followed by a letter or `(`. -/
def noDigAlpha : List Char → Bool
  | a :: b :: r => !(isDigitC a && isAlphaParen b) && noDigAlpha (b :: r)
  | _ => true

theorem head?_dropWhile_not (p : Char → Bool) (l : List Char) :
    ∀ c, (l.dropWhile p).head? = some c → p c = false := by
  induction l with
  | nil => intro c h; simp at h
  | cons a r IH =>
    intro c h
    rw [List.dropWhile_cons] at h
    by_cases hp : p a
    · rw [if_pos hp] at h; exact IH c h
    · rw [if_neg hp] at h
      simp only [List.head?_cons, Option.some.injEq] at h
      subst h
      simpa using hp

theorem dropWhile_eq_self (p : Char → Bool) (l : List Char)
    (h : ∀ c, l.head? = some c → p c = false) : l.dropWhile p = l := by
  cases l with
  | nil => rfl
  | cons a r =>
    rw [List.dropWhile_cons, h a rfl]
    simp

theorem getLast?_dropWhile (p : Char → Bool) (l : List Char)
    (h : l.dropWhile p ≠ []) : (l.dropWhile p).getLast? = l.getLast? := by
  induction l with
  | nil => exact absurd rfl h
  | cons a r IH =>
    rw [List.dropWhile_cons] at h ⊢
    by_cases hp : p a
    · rw [if_pos hp] at h ⊢
      cases r with
      | nil => exact absurd rfl h
      | cons b t => rw [IH h, List.getLast?_cons_cons]
    · rw [if_neg hp]

/-- `pstrip` is the identity on a list with no whitespace at either end. -/
theorem pstrip_eq_self (l : List Char)
    (h1 : ∀ c, l.head? = some c → isWsC c = false)
    (h2 : ∀ c, l.getLast? = some c → isWsC c = false) : pstrip l = l := by
  unfold pstrip
  rw [dropWhile_eq_self _ _ h1]
  have h3 : ∀ c, l.reverse.head? = some c → isWsC c = false := by
    intro c hc
    rw [List.head?_reverse] at hc
    exact h2 c hc
  rw [dropWhile_eq_self _ _ h3, List.reverse_reverse]

/-- The head of `pstrip l` is not whitespace. -/
theorem pstrip_head_not_ws (l : List Char) :
    ∀ c, (pstrip l).head? = some c → isWsC c = false := by
  intro c h
  unfold pstrip at h
  rw [List.head?_reverse] at h
  set Y := (l.dropWhile isWsC).reverse with hY
  by_cases hne : Y.dropWhile isWsC = []
  · rw [hne] at h; simp at h
  · rw [getLast?_dropWhile _ _ hne, hY, List.getLast?_reverse] at h
    exact head?_dropWhile_not _ _ c h

/-- The last character of `pstrip l` is not whitespace. -/
theorem pstrip_getLast_not_ws (l : List Char) :
    ∀ c, (pstrip l).getLast? = some c → isWsC c = false := by
  intro c h
  unfold pstrip at h
  rw [List.getLast?_reverse] at h
  exact head?_dropWhile_not _ _ c h

theorem mem_ureplace {c k : Char} {v l : List Char} (h : c ∈ ureplace k v l) :
    c ∈ v ∨ c ∈ l := by
  induction l with
  | nil => simp [ureplace] at h
  | cons a r IH =>
    rw [ureplace] at h
    rcases List.mem_append.mp h with h1 | h2
    · by_cases ha : a = k
      · rw [if_pos ha] at h1; exact Or.inl h1
      · rw [if_neg ha] at h1
        simp only [List.mem_singleton] at h1
        exact Or.inr (h1 ▸ List.mem_cons_self a r)
    · rcases IH h2 with h3 | h3
      · exact Or.inl h3
      · exact Or.inr (List.mem_cons_of_mem a h3)

theorem not_mem_ureplace {c k : Char} {v l : List Char} (hv : c ∉ v) (hl : c ∉ l) :
    c ∉ ureplace k v l :=
  fun h => (mem_ureplace h).elim hv hl

theorem self_not_mem_ureplace {k : Char} {v l : List Char} (hv : k ∉ v) :
    k ∉ ureplace k v l := by
  induction l with
  | nil => simp [ureplace]
  | cons a r IH =>
    rw [ureplace]
    intro h
    rcases List.mem_append.mp h with h1 | h2
    · by_cases ha : a = k
      · rw [if_pos ha] at h1; exact hv h1
      · rw [if_neg ha] at h1
        simp only [List.mem_singleton] at h1
        exact ha (h1.symm)
    · exact IH h2

theorem ureplace_eq_self {k : Char} {v l : List Char} (h : k ∉ l) :
    ureplace k v l = l := by
  induction l with
  | nil => rfl
  | cons a r IH =>
    rw [ureplace]
    have ha : a ≠ k := fun e => h (e ▸ List.mem_cons_self a r)
    rw [if_neg ha, IH (fun hm => h (List.mem_cons_of_mem a hm))]
    rfl

theorem ureplace_ne_nil {k : Char} {v l : List Char} (hv : v ≠ []) (hl : l ≠ []) :
    ureplace k v l ≠ [] := by
  cases l with
  | nil => exact absurd rfl hl
  | cons a r =>
    rw [ureplace]
    intro h
    rcases List.append_eq_nil.mp h with ⟨h1, -⟩
    by_cases ha : a = k
    · rw [if_pos ha] at h1; exact hv h1
    · rw [if_neg ha] at h1; simp at h1

theorem ureplace_head_not_ws {k : Char} {v l : List Char}
    (hvne : v ≠ []) (hv : ∀ c, v.head? = some c → isWsC c = false)
    (hl : ∀ c, l.head? = some c → isWsC c = false) :
    ∀ c, (ureplace k v l).head? = some c → isWsC c = false := by
  intro c h
  cases l with
  | nil => simp [ureplace] at h
  | cons a r =>
    rw [ureplace] at h
    by_cases ha : a = k
    · rw [if_pos ha, List.head?_append_of_ne_nil v hvne] at h
      exact hv c h
    · rw [if_neg ha] at h
      simp only [List.cons_append, List.nil_append, List.head?_cons,
        Option.some.injEq] at h
      exact h ▸ hl a rfl

theorem ureplace_getLast_not_ws {k : Char} {v l : List Char}
    (hvne : v ≠ []) (hv : ∀ c, v.getLast? = some c → isWsC c = false)
    (hl : ∀ c, l.getLast? = some c → isWsC c = false) :
    ∀ c, (ureplace k v l).getLast? = some c → isWsC c = false := by
  induction l with
  | nil => intro c h; simp [ureplace] at h
  | cons a r IH =>
    intro c h
    rw [ureplace] at h
    cases hr : r with
    | nil =>
      subst hr
      rw [ureplace, List.append_nil] at h
      by_cases ha : a = k
      · rw [if_pos ha] at h; exact hv c h
      · rw [if_neg ha] at h
        simp only [List.getLast?_singleton, Option.some.injEq] at h
        exact h ▸ hl a rfl
    | cons b t =>
      subst hr
      have hne : ureplace k v (b :: t) ≠ [] := ureplace_ne_nil hvne (by simp)
      rw [List.getLast?_append_of_ne_nil _ hne] at h
      have hl2 : ∀ d, (b :: t).getLast? = some d → isWsC d = false := by
        intro d hd
        exact hl d (by rw [List.getLast?_cons_cons]; exact hd)
      exact IH hl2 c h

theorem insertStar_cons (b : Char) (r : List Char) :
    ∃ t, insertStar (b :: r) = b :: t := by
  cases r with
  | nil => exact ⟨[], rfl⟩
  | cons c r2 =>
    by_cases h : isDigitC b && isAlphaParen c
    · exact ⟨'*' :: insertStar (c :: r2), by rw [insertStar, if_pos h]⟩
    · exact ⟨insertStar (c :: r2), by rw [insertStar, if_neg h]⟩

theorem mem_insertStar {c : Char} : ∀ {l : List Char}, c ∈ insertStar l → c = '*' ∨ c ∈ l := by
  intro l
  induction l with
  | nil => intro h; simp [insertStar] at h
  | cons a t IH =>
    intro h
    cases t with
    | nil => simp [insertStar] at h; exact Or.inr (by simp [h])
    | cons b r =>
      by_cases hb : isDigitC a && isAlphaParen b
      · rw [insertStar, if_pos hb] at h
        rcases List.mem_cons.mp h with h1 | h1
        · exact Or.inr (by simp [h1])
        · rcases List.mem_cons.mp h1 with h2 | h2
          · exact Or.inl h2
          · rcases IH h2 with h3 | h3
            · exact Or.inl h3
            · exact Or.inr (List.mem_cons_of_mem a h3)
      · rw [insertStar, if_neg hb] at h
        rcases List.mem_cons.mp h with h1 | h1
        · exact Or.inr (by simp [h1])
        · rcases IH h1 with h3 | h3
          · exact Or.inl h3
          · exact Or.inr (List.mem_cons_of_mem a h3)

theorem insertStar_head? : ∀ l : List Char, (insertStar l).head? = l.head? := by
  intro l
  cases l with
  | nil => rfl
  | cons b r =>
    obtain ⟨t, ht⟩ := insertStar_cons b r
    rw [ht]
    simp

theorem insertStar_getLast? : ∀ l : List Char, (insertStar l).getLast? = l.getLast? := by
  intro l
  induction l with
  | nil => rfl
  | cons a t IH =>
    cases t with
    | nil => rfl
    | cons b r =>
      obtain ⟨u, hu⟩ := insertStar_cons b r
      have hne : insertStar (b :: r) ≠ [] := by rw [hu]; simp
      by_cases hb : isDigitC a && isAlphaParen b
      · rw [insertStar, if_pos hb]
        rw [List.getLast?_cons_cons]
        rw [show ('*' :: insertStar (b :: r)).getLast? = (insertStar (b :: r)).getLast? by
          rw [hu, List.getLast?_cons_cons]]
        rw [IH, List.getLast?_cons_cons]
      · rw [insertStar, if_neg hb]
        rw [show (a :: insertStar (b :: r)).getLast? = (insertStar (b :: r)).getLast? by
          rw [hu, List.getLast?_cons_cons]]
        rw [IH, List.getLast?_cons_cons]

theorem noDigAlpha_insertStar : ∀ l : List Char, noDigAlpha (insertStar l) = true := by
  intro l
  induction l with
  | nil => rfl
  | cons a t IH =>
    cases t with
    | nil => rfl
    | cons b r =>
      obtain ⟨u, hu⟩ := insertStar_cons b r
      by_cases hb : isDigitC a && isAlphaParen b
      · rw [insertStar, if_pos hb, hu]
        show (!(isDigitC a && isAlphaParen '*') &&
          (!(isDigitC '*' && isAlphaParen b) && noDigAlpha (b :: u))) = true
        rw [← hu]
        have e1 : isAlphaParen '*' = false := by decide
        have e2 : isDigitC '*' = false := by decide
        simp [e1, e2, IH]
      · rw [insertStar, if_neg hb, hu]
        show (!(isDigitC a && isAlphaParen b) && noDigAlpha (b :: u)) = true
        rw [← hu]
        simp only [Bool.not_eq_true] at hb
        simp [hb, IH]

theorem insertStar_eq_self : ∀ l : List Char, noDigAlpha l = true → insertStar l = l := by
  intro l
  induction l with
  | nil => intro h; rfl
  | cons a t IH =>
    intro h
    cases t with
    | nil => rfl
    | cons b r =>
      have h1 : (!(isDigitC a && isAlphaParen b) && noDigAlpha (b :: r)) = true := h
      rw [Bool.and_eq_true] at h1
      have hb : (isDigitC a && isAlphaParen b) = false := by
        cases hcase : (isDigitC a && isAlphaParen b)
        · rfl
        · rw [hcase] at h1; simp at h1
      rw [insertStar, if_neg (by simp [hb]), IH h1.2]

theorem mem_collapseEq {c : Char} : ∀ {l : List Char}, c ∈ collapseEq l → c ∈ l := by
  intro l
  induction l using collapseEq.induct with
  | case1 => intro h; simp [collapseEq] at h
  | case2 d => intro h; simpa [collapseEq] using h
  | case3 a b r hab IH =>
    intro h
    rw [collapseEq, if_pos hab] at h
    rcases List.mem_cons.mp h with h1 | h1
    · simp [h1, hab.1]
    · simp [List.mem_cons, IH h1]
  | case4 a b r hab IH =>
    intro h
    rw [collapseEq, if_neg hab] at h
    rcases List.mem_cons.mp h with h1 | h1
    · simp [h1]
    · simp [List.mem_cons.mp (IH h1)]

theorem collapseEq_cons (b : Char) (r : List Char) :
    ∃ t, collapseEq (b :: r) = b :: t := by
  cases r with
  | nil => exact ⟨[], rfl⟩
  | cons c r2 =>
    by_cases h : b = '=' ∧ c = '='
    · refine ⟨collapseEq r2, ?_⟩
      rw [collapseEq, if_pos h, h.1]
    · exact ⟨collapseEq (c :: r2), by rw [collapseEq, if_neg h]⟩

theorem collapseEq_head? : ∀ l : List Char, (collapseEq l).head? = l.head? := by
  intro l
  cases l with
  | nil => rfl
  | cons b r =>
    obtain ⟨t, ht⟩ := collapseEq_cons b r
    rw [ht]
    simp

theorem collapseEq_getLast? : ∀ l : List Char, (collapseEq l).getLast? = l.getLast? := by
  intro l
  induction l using collapseEq.induct with
  | case1 => rfl
  | case2 d => rfl
  | case3 a b r hab IH =>
    rw [collapseEq, if_pos hab]
    cases r with
    | nil => simp [collapseEq, hab.2]
    | cons c r2 =>
      obtain ⟨t, ht⟩ := collapseEq_cons c r2
      rw [show ('=' :: collapseEq (c :: r2)).getLast? = (collapseEq (c :: r2)).getLast? by
        rw [ht, List.getLast?_cons_cons]]
      rw [IH, List.getLast?_cons_cons, List.getLast?_cons_cons]
  | case4 a b r hab IH =>
    rw [collapseEq, if_neg hab]
    obtain ⟨t, ht⟩ := collapseEq_cons b r
    rw [show (a :: collapseEq (b :: r)).getLast? = (collapseEq (b :: r)).getLast? by
      rw [ht, List.getLast?_cons_cons]]
    rw [IH, List.getLast?_cons_cons]

theorem noDigAlpha_collapseEq : ∀ l : List Char,
    noDigAlpha l = true → noDigAlpha (collapseEq l) = true := by
  intro l
  induction l using collapseEq.induct with
  | case1 => intro h; exact h
  | case2 d => intro h; rfl
  | case3 a b r hab IH =>
    intro h
    rw [collapseEq, if_pos hab]
    have hr : noDigAlpha r = true := by
      cases r with
      | nil => rfl
      | cons c r2 =>
        have h2 : (!(isDigitC b && isAlphaParen c) && noDigAlpha (c :: r2)) = true :=
          (Bool.and_eq_true _ _ |>.mp h).2
        exact (Bool.and_eq_true _ _ |>.mp h2).2
    cases hcr : collapseEq r with
    | nil => rfl
    | cons c t =>
      show (!(isDigitC '=' && isAlphaParen c) && noDigAlpha (c :: t)) = true
      rw [← hcr]
      have e1 : isDigitC '=' = false := by decide
      simp [e1, IH hr]
  | case4 a b r hab IH =>
    intro h
    rw [collapseEq, if_neg hab]
    have h1 := Bool.and_eq_true _ _ |>.mp h
    obtain ⟨t, ht⟩ := collapseEq_cons b r
    rw [ht]
    show (!(isDigitC a && isAlphaParen b) && noDigAlpha (b :: t)) = true
    rw [← ht]
    simp [h1.1, IH h1.2]

theorem collapseEq_eq_self : ∀ l : List Char,
    hasDoubleEq l = false → collapseEq l = l := by
  intro l
  induction l using collapseEq.induct with
  | case1 => intro h; rfl
  | case2 d => intro h; rfl
  | case3 a b r hab IH =>
    intro h
    exfalso
    have : ((a = '=' : Bool) && (b = '=' : Bool)) = true := by
      simp [hab.1, hab.2]
    rw [hasDoubleEq, this] at h
    simp at h
  | case4 a b r hab IH =>
    intro h
    rw [collapseEq, if_neg hab]
    have h2 : hasDoubleEq (b :: r) = false := by
      rw [hasDoubleEq] at h
      exact (Bool.or_eq_false_iff.mp h).2
    rw [IH h2]

/-- None of the eight glyph keys of `UNICODE_MAP` survives `unicodeAll`. -/
theorem unicodeAll_no_glyphs (l : List Char) :
    (Char.ofNat 0xD7) ∉ unicodeAll l ∧ (Char.ofNat 0xB7) ∉ unicodeAll l ∧
    (Char.ofNat 0x2219) ∉ unicodeAll l ∧ (Char.ofNat 0xF7) ∉ unicodeAll l ∧
    (Char.ofNat 0x2212) ∉ unicodeAll l ∧ (Char.ofNat 0x2014) ∉ unicodeAll l ∧
    (Char.ofNat 0x221A) ∉ unicodeAll l ∧ (Char.ofNat 0x3C0) ∉ unicodeAll l := by
  unfold unicodeAll
  refine ⟨?_, ?_, ?_, ?_, ?_, ?_, ?_, ?_⟩
  · exact not_mem_ureplace (by decide) (not_mem_ureplace (by decide)
      (not_mem_ureplace (by decide) (not_mem_ureplace (by decide)
        (not_mem_ureplace (by decide) (not_mem_ureplace (by decide)
          (not_mem_ureplace (by decide) (self_not_mem_ureplace (by decide))))))))
  · exact not_mem_ureplace (by decide) (not_mem_ureplace (by decide)
      (not_mem_ureplace (by decide) (not_mem_ureplace (by decide)
        (not_mem_ureplace (by decide) (not_mem_ureplace (by decide)
          (self_not_mem_ureplace (by decide)))))))
  · exact not_mem_ureplace (by decide) (not_mem_ureplace (by decide)
      (not_mem_ureplace (by decide) (not_mem_ureplace (by decide)
        (not_mem_ureplace (by decide) (self_not_mem_ureplace (by decide))))))
  · exact not_mem_ureplace (by decide) (not_mem_ureplace (by decide)
      (not_mem_ureplace (by decide) (not_mem_ureplace (by decide)
        (self_not_mem_ureplace (by decide)))))
  · exact not_mem_ureplace (by decide) (not_mem_ureplace (by decide)
      (not_mem_ureplace (by decide) (self_not_mem_ureplace (by decide))))
  · exact not_mem_ureplace (by decide) (not_mem_ureplace (by decide)
      (self_not_mem_ureplace (by decide)))
  · exact not_mem_ureplace (by decide) (self_not_mem_ureplace (by decide))
  · exact self_not_mem_ureplace (by decide)

/-- `unicodeAll` is the identity on a glyph-free list. -/
theorem unicodeAll_eq_self (l : List Char)
    (h1 : (Char.ofNat 0xD7) ∉ l) (h2 : (Char.ofNat 0xB7) ∉ l)
    (h3 : (Char.ofNat 0x2219) ∉ l) (h4 : (Char.ofNat 0xF7) ∉ l)
    (h5 : (Char.ofNat 0x2212) ∉ l) (h6 : (Char.ofNat 0x2014) ∉ l)
    (h7 : (Char.ofNat 0x221A) ∉ l) (h8 : (Char.ofNat 0x3C0) ∉ l) :
    unicodeAll l = l := by
  unfold unicodeAll
  rw [ureplace_eq_self h1, ureplace_eq_self h2, ureplace_eq_self h3,
    ureplace_eq_self h4, ureplace_eq_self h5, ureplace_eq_self h6,
    ureplace_eq_self h7, ureplace_eq_self h8]

/-- `unicodeAll` keeps a non-whitespace head. -/
theorem unicodeAll_head_not_ws (l : List Char)
    (h : ∀ c, l.head? = some c → isWsC c = false) :
    ∀ c, (unicodeAll l).head? = some c → isWsC c = false := by
  unfold unicodeAll
  exact ureplace_head_not_ws (by decide) (by decide)
    (ureplace_head_not_ws (by decide) (by decide)
      (ureplace_head_not_ws (by decide) (by decide)
        (ureplace_head_not_ws (by decide) (by decide)
          (ureplace_head_not_ws (by decide) (by decide)
            (ureplace_head_not_ws (by decide) (by decide)
              (ureplace_head_not_ws (by decide) (by decide)
                (ureplace_head_not_ws (by decide) (by decide) h)))))))

/-- `unicodeAll` keeps a non-whitespace last character. -/
theorem unicodeAll_getLast_not_ws (l : List Char)
    (h : ∀ c, l.getLast? = some c → isWsC c = false) :
    ∀ c, (unicodeAll l).getLast? = some c → isWsC c = false := by
  unfold unicodeAll
  exact ureplace_getLast_not_ws (by decide) (by decide)
    (ureplace_getLast_not_ws (by decide) (by decide)
      (ureplace_getLast_not_ws (by decide) (by decide)
        (ureplace_getLast_not_ws (by decide) (by decide)
          (ureplace_getLast_not_ws (by decide) (by decide)
            (ureplace_getLast_not_ws (by decide) (by decide)
              (ureplace_getLast_not_ws (by decide) (by decide)
                (ureplace_getLast_not_ws (by decide) (by decide) h)))))))

theorem not_mem_insertStar {c : Char} (hc : c ≠ '*') {l : List Char} (h : c ∉ l) :
    c ∉ insertStar l :=
  fun hm => (mem_insertStar hm).elim hc h

theorem not_mem_collapseEq {c : Char} {l : List Char} (h : c ∉ l) : c ∉ collapseEq l :=
  fun hm => h (mem_collapseEq hm)

theorem normalize_head_not_ws (s : List Char) :
    ∀ c, (normalize_text s).head? = some c → isWsC c = false := by
  intro c h
  unfold normalize_text at h
  rw [collapseEq_head?, insertStar_head?] at h
  exact unicodeAll_head_not_ws _ (pstrip_head_not_ws s) c h

theorem normalize_getLast_not_ws (s : List Char) :
    ∀ c, (normalize_text s).getLast? = some c → isWsC c = false := by
  intro c h
  unfold normalize_text at h
  rw [collapseEq_getLast?, insertStar_getLast?] at h
  exact unicodeAll_getLast_not_ws _ (pstrip_getLast_not_ws s) c h

theorem normalize_no_glyphs (s : List Char) :
    (Char.ofNat 0xD7) ∉ normalize_text s ∧ (Char.ofNat 0xB7) ∉ normalize_text s ∧
    (Char.ofNat 0x2219) ∉ normalize_text s ∧ (Char.ofNat 0xF7) ∉ normalize_text s ∧
    (Char.ofNat 0x2212) ∉ normalize_text s ∧ (Char.ofNat 0x2014) ∉ normalize_text s ∧
    (Char.ofNat 0x221A) ∉ normalize_text s ∧ (Char.ofNat 0x3C0) ∉ normalize_text s := by
  obtain ⟨g1, g2, g3, g4, g5, g6, g7, g8⟩ := unicodeAll_no_glyphs (pstrip s)
  unfold normalize_text
  exact ⟨not_mem_collapseEq (not_mem_insertStar (by decide) g1),
    not_mem_collapseEq (not_mem_insertStar (by decide) g2),
    not_mem_collapseEq (not_mem_insertStar (by decide) g3),
    not_mem_collapseEq (not_mem_insertStar (by decide) g4),
    not_mem_collapseEq (not_mem_insertStar (by decide) g5),
    not_mem_collapseEq (not_mem_insertStar (by decide) g6),
    not_mem_collapseEq (not_mem_insertStar (by decide) g7),
    not_mem_collapseEq (not_mem_insertStar (by decide) g8)⟩

/-- The normalizer leaves no digit immediately followed by a letter or an
opening parenthesis: every such adjacency has received a `*`. -/
theorem normalize_noDigAlpha (s : List Char) : noDigAlpha (normalize_text s) = true :=
  noDigAlpha_collapseEq _ (noDigAlpha_insertStar _)

/-- C4 counterexample: the normalizer is not idempotent.  On `"==="` the
`==`-collapse rewrites the first pair, producing `"=="`, which a second
normalization collapses again to `"="`. -/
theorem normalize_text_not_idempotent :
    normalize_text (normalize_text "===".data) ≠ normalize_text "===".data := by decide

/-- C4 (amended): the normalizer is idempotent on every input whose
normalized form has no two adjacent `=` characters — equivalently, on every
input without three consecutive `=`; `"==="` breaks idempotence because the
`s.replace("==", "=")` pass shortens `=`-runs by only one pair per scan. -/
theorem normalize_text_idempotent_no_double_eq (s : List Char)
    (h : hasDoubleEq (normalize_text s) = false) :
    normalize_text (normalize_text s) = normalize_text s := by
  obtain ⟨g1, g2, g3, g4, g5, g6, g7, g8⟩ := normalize_no_glyphs s
  show collapseEq (insertStar (unicodeAll (pstrip (normalize_text s)))) = normalize_text s
  rw [pstrip_eq_self _ (normalize_head_not_ws s) (normalize_getLast_not_ws s),
    unicodeAll_eq_self _ g1 g2 g3 g4 g5 g6 g7 g8,
    insertStar_eq_self _ (normalize_noDigAlpha s),
    collapseEq_eq_self _ h]

/-- Witness for C4 at the concrete input `"5x == 3"`. -/
theorem normalize_text_idempotent_no_double_eq_witness :
    hasDoubleEq (normalize_text "5x == 3".data) = false ∧
    normalize_text (normalize_text "5x == 3".data) = normalize_text "5x == 3".data :=
  ⟨by decide, normalize_text_idempotent_no_double_eq _ (by decide)⟩

/-- C9 counterexample: the normalizer inserts no `*` between an identifier
and an opening parenthesis separated by whitespace — `normalize("x (")` is
unchanged and contains no `*` (the claim requires one). -/
theorem normalize_text_no_ident_paren_star :
    normalize_text "x (".data = "x (".data ∧
    hasChar '*' (normalize_text "x (".data) = false := by
  exact ⟨by decide, by decide⟩

/-- C9 (amended): the normalizer inserts `*` exactly at
digit-immediately-followed-by-letter-or-`(` positions: afterwards no such
adjacency remains, `normalize("5x")` contains `5*x` and
`normalize("2(x+1)")` contains `2*(x+1)`; adjacency of an identifier or a
closing parenthesis with a following identifier or `(` is left unchanged
(it is handled later by the parser's implicit-multiplication transform,
not by the normalizer). -/
theorem normalize_text_implicit_multiplication :
    (∀ s : List Char, noDigAlpha (normalize_text s) = true) ∧
    containsSub "5*x".data (normalize_text "5x".data) = true ∧
    containsSub "2*(x+1)".data (normalize_text "2(x+1)".data) = true ∧
    normalize_text "x(".data = "x(".data ∧
    normalize_text ") (".data = ") (".data :=
  ⟨fun s => normalize_noDigAlpha s, by decide, by decide, by decide, by decide⟩

/-- C2 (evaluation at the failing input, plus the intended components): the
pipeline `parse_and_solve "2*x + 3 = 11"` reports `degree = None` and only
the generic step — `Poly` and `explain_linear` are not imported in
`parsing.py`, so the classification `NameError` is swallowed and the linear
branch is dead — while the degree of `lhs - rhs` is in fact 1 and
`explain_linear` (as defined in `explain.py`) produces the rewrite
`2*x = 8` followed by division by 2 giving `x = 4`, consistent with the
computed solution `[4]`. -/
theorem linear_classification_dead_in_pipeline :
    (parse_and_solve "2*x + 3 = 11" "auto" =
      { ok := true,
        detected := { kind := some "equation", varName := some "x", degree := some none },
        result := some ["4"], steps := ["Solve symbolically and simplify."],
        warnings := [] }) ∧
    (pdeg (psub [(3 : Frac), 2] [(11 : Frac)]) = some 1) ∧
    (explain_linear [(3 : Frac), 2] [(11 : Frac)] =
      [LinStep.moveTerms [0, 2] 8, LinStep.divideBy 2 4]) :=
  ⟨by decide, by decide, by decide⟩

/-- C3 (evaluation at the failing input, plus the intended components): the
pipeline `parse_and_solve "x^2 - 5*x + 6 = 0"` reports `degree = None` and
only the generic step (`Poly` and `explain_quadratic` are not imported in
`parsing.py`), while the solution set is `{2, 3}`; the degree of
`lhs - rhs` is in fact 2, and `explain_quadratic` (as defined in
`explain.py`) reports `a=1, b=-5, c=6`, discriminant 1, the factorization
`(x-2)*(x-3)` and the zero-product step. -/
theorem quadratic_classification_dead_in_pipeline :
    (parse_and_solve "x^2 - 5*x + 6 = 0" "auto" =
      { ok := true,
        detected := { kind := some "equation", varName := some "x", degree := some none },
        result := some ["2", "3"], steps := ["Solve symbolically and simplify."],
        warnings := [] }) ∧
    (pdeg (psub [(6 : Frac), -5, 1] [(0 : Frac)]) = some 2) ∧
    (explain_quadratic [(6 : Frac), -5, 1] [(0 : Frac)] =
      some [QuadStep.standardForm 1 (-5) 6, QuadStep.discriminant 1,
            QuadStep.factored 1 2 3, QuadStep.zeroProduct]) :=
  ⟨by decide, by decide, by decide⟩

/-- C5 counterexample: for text containing both a `factor` cue and a
`simplify` cue and no `=`, the detector returns `simplify`, not `factor`:
the code checks `simplify` before `factor`. -/
theorem detect_simplify_checked_before_factor :
    detect_operation "factor and simplify x".data ≠ "factor" ∧
    containsSub "factor".data ((pstrip "factor and simplify x".data).map Char.toLower) = true ∧
    containsSub "simplify".data ((pstrip "factor and simplify x".data).map Char.toLower) = true ∧
    hasChar '=' "factor and simplify x".data = false := by
  exact ⟨by decide, by decide, by decide, by decide⟩

/-- C5 (amended): rules are evaluated in the order of the code with the
first match winning — equality, derivative, integrate, limit, `simplify`,
`factor`: `=` detection precedes all keyword cues (so
`detect("simplify x=5") = solve_equation`), and for text without `=` and
without earlier cues that contains `simplify`, the detector returns
`simplify` even when `factor` is also present (the `simplify` rule precedes
the `factor` rule, unlike the order listed in the spec). -/
theorem detect_operation_precedence (text : List Char) :
    (hasChar '=' text = true → startsDetPrefixes (pstrip text) = false →
      detect_operation text = "solve_equation") ∧
    (detect_operation "simplify x=5".data = "solve_equation") ∧
    (hasChar '=' text = false →
      derivCue ((pstrip text).map Char.toLower) = false →
      "d/d".data.isPrefixOf ((pstrip text).map Char.toLower) = false →
      containsSub "integrate".data ((pstrip text).map Char.toLower) = false →
      hasChar (Char.ofNat 0x222B) ((pstrip text).map Char.toLower) = false →
      wbSearch "int".data ((pstrip text).map Char.toLower) = false →
      containsSub "limit".data ((pstrip text).map Char.toLower) = false →
      containsSub "lim".data ((pstrip text).map Char.toLower) = false →
      containsSub "simplify".data ((pstrip text).map Char.toLower) = true →
      detect_operation text = "simplify") ∧
    (detect_operation "factor and simplify x".data = "simplify") := by
  refine ⟨?_, by decide, ?_, by decide⟩
  · intro h1 h2
    simp [detect_operation, h1, h2]
  · intro h1 h2 h3 h4 h5 h6 h7 h8 h9
    simp [detect_operation, h1, h2, h3, h4, h5, h6, h7, h8, h9]

/-- Witness for C5 at the two concrete inputs. -/
theorem detect_operation_precedence_witness :
    detect_operation "simplify x=5".data = "solve_equation" ∧
    detect_operation "factor and simplify x".data = "simplify" :=
  ⟨(detect_operation_precedence "simplify x=5".data).1 (by decide) (by decide),
   (detect_operation_precedence "factor and simplify x".data).2.2.1 (by decide) (by decide)
     (by decide) (by decide) (by decide) (by decide) (by decide) (by decide) (by decide)⟩

/-- C6 counterexample: for a function applied to the bare variable, such as
`sin(x)`, the code emits the chain-rule step, not the generic basic-rules
step the claim requires: the condition is `expr.args[0].has(var)`, which
holds for the bare variable itself. -/
theorem explain_derivative_sinx_not_basic :
    explain_derivative (SymExpr.fn "sin" (SymExpr.sym "x")) "x" ≠ [DerivStep.basicRules] ∧
    explain_derivative (SymExpr.fn "sin" (SymExpr.sym "x")) "x" = [DerivStep.chainRule] := by
  exact ⟨by decide, by decide⟩

/-- C6 (amended): the rule is chosen by the outermost shape — a sum gives
linearity, a product gives the product rule, a single-argument function
application whose argument CONTAINS the differentiation variable (including
the bare variable itself) gives the chain rule, and anything else (a
function of a variable-free argument, a power, a symbol, a number) gives
the generic basic-rules step. -/
theorem explain_derivative_shape_selection :
    (∀ (l : List SymExpr) (v : String),
      explain_derivative (SymExpr.add l) v = [DerivStep.linearity]) ∧
    (∀ (l : List SymExpr) (v : String),
      explain_derivative (SymExpr.mul l) v = [DerivStep.productRule]) ∧
    (∀ (f : String) (a : SymExpr) (v : String), shas v a = true →
      explain_derivative (SymExpr.fn f a) v = [DerivStep.chainRule]) ∧
    (∀ (f : String) (a : SymExpr) (v : String), shas v a = false →
      explain_derivative (SymExpr.fn f a) v = [DerivStep.basicRules]) ∧
    (∀ (b e : SymExpr) (v : String),
      explain_derivative (SymExpr.pow b e) v = [DerivStep.basicRules]) ∧
    (∀ (s v : String), explain_derivative (SymExpr.sym s) v = [DerivStep.basicRules]) := by
  refine ⟨fun l v => rfl, fun l v => rfl, ?_, ?_, fun b e v => rfl, fun s v => rfl⟩
  · intro f a v h
    simp [explain_derivative, isAddE, isMulE, sympyArgs, h]
  · intro f a v h
    simp [explain_derivative, isAddE, isMulE, sympyArgs, h]

/-- Witness for C6 at concrete expressions (`sin(x)` and `exp(5)`). -/
theorem explain_derivative_shape_selection_witness :
    explain_derivative (SymExpr.fn "sin" (SymExpr.sym "x")) "x" = [DerivStep.chainRule] ∧
    explain_derivative (SymExpr.fn "exp" (SymExpr.intNum 5)) "x" = [DerivStep.basicRules] :=
  ⟨explain_derivative_shape_selection.2.2.1 "sin" (SymExpr.sym "x") "x" (by decide),
   explain_derivative_shape_selection.2.2.2.1 "exp" (SymExpr.intNum 5) "x" (by decide)⟩

/-- C8 counterexample: the selector returns the empty string for the input
`"y="`, which contains alphanumeric content, and no explicit failure is
signalled — the answer-placeholder filter and the trailing
single-letter-equals cleanup erase everything. -/
theorem selector_silently_empty_on_alphanumeric :
    extract_math_from_text "y=".data = [] ∧
    "y=".data.any (fun c => c.isAlphanum) = true := by
  exact ⟨by decide, by decide⟩

/-- C8 (amended): the selector can silently return the empty string: an
empty input yields `""`, and an input consisting only of an
answer-placeholder line such as `"y="` (alphanumeric content present) also
yields `""`, with no explicit failure; on ordinary OCR transcripts it picks
the math line (`"Solve for y\n2y = 10\ny="` gives `"2y=10"`). -/
theorem selector_empty_string_behavior :
    extract_math_from_text [] = [] ∧
    (extract_math_from_text "y=".data = [] ∧
      "y=".data.any (fun c => c.isAlphanum) = true) ∧
    extract_math_from_text "Solve for y\n2y = 10\ny=".data = "2y=10".data := by
  exact ⟨by decide, ⟨by decide, by decide⟩, by decide⟩


theorem lexLe_total : ∀ a b : List Char, lexLe a b = true ∨ lexLe b a = true := by
  intro a
  induction a with
  | nil => intro b; exact Or.inl rfl
  | cons x as IH =>
    intro b
    cases b with
    | nil => exact Or.inr rfl
    | cons y bs =>
      by_cases h1 : x.toNat < y.toNat
      · left
        simp [lexLe, h1]
      · by_cases h2 : x.toNat = y.toNat
        · have h3 : ¬ y.toNat < x.toNat := by omega
          rcases IH bs with h | h
          · left
            simp [lexLe, h1, h2, h]
          · right
            simp [lexLe, h3, h2.symm, h]
        · right
          have h3 : y.toNat < x.toNat := by omega
          simp [lexLe, h3]

theorem lexLe_trans : ∀ a b c : List Char,
    lexLe a b = true → lexLe b c = true → lexLe a c = true := by
  intro a
  induction a with
  | nil => intro b c _ _; rfl
  | cons x as IH =>
    intro b c h1 h2
    cases b with
    | nil => simp [lexLe] at h1
    | cons y bs =>
      cases c with
      | nil => simp [lexLe] at h2
      | cons z cs =>
        by_cases hxy : x.toNat < y.toNat
        · by_cases hyz : y.toNat < z.toNat
          · simp [lexLe, show x.toNat < z.toNat by omega]
          · by_cases hyz2 : y.toNat = z.toNat
            · simp [lexLe, show x.toNat < z.toNat by omega]
            · simp [lexLe, hyz, hyz2] at h2
        · by_cases hxy2 : x.toNat = y.toNat
          · by_cases hyz : y.toNat < z.toNat
            · simp [lexLe, show x.toNat < z.toNat by omega]
            · by_cases hyz2 : y.toNat = z.toNat
              · simp only [lexLe, if_neg hxy, if_pos hxy2] at h1
                simp only [lexLe, if_neg hyz, if_pos hyz2] at h2
                simp [lexLe, show ¬ x.toNat < z.toNat by omega,
                  show x.toNat = z.toNat by omega, IH bs cs h1 h2]
              · simp [lexLe, hyz, hyz2] at h2
          · simp [lexLe, hxy, hxy2] at h1

theorem lexLe_refl : ∀ l : List Char, lexLe l l = true := by
  intro l
  induction l with
  | nil => rfl
  | cons a as IH => simp [lexLe, IH]

instance : IsTotal String (fun a b => strLeB a b = true) :=
  ⟨fun a b => lexLe_total a.data b.data⟩

instance : IsTrans String (fun a b => strLeB a b = true) :=
  ⟨fun a b c => lexLe_trans a.data b.data c.data⟩

theorem mem_dedupStr {x : String} : ∀ {l : List String}, x ∈ dedupStr l ↔ x ∈ l := by
  intro l
  induction l with
  | nil => simp [dedupStr]
  | cons a r IH =>
    rw [dedupStr]
    by_cases h : a ∈ r
    · rw [if_pos h]
      constructor
      · intro hm
        exact List.mem_cons_of_mem a (IH.mp hm)
      · intro hm
        rcases List.mem_cons.mp hm with h1 | h1
        · exact IH.mpr (h1 ▸ h)
        · exact IH.mpr h1
    · rw [if_neg h]
      simp [List.mem_cons, IH]

theorem dedupStr_ne_nil {l : List String} (h : l ≠ []) : dedupStr l ≠ [] := by
  cases l with
  | nil => exact absurd rfl h
  | cons a r =>
    intro e
    have ha : a ∈ dedupStr (a :: r) := mem_dedupStr.mpr (List.mem_cons_self a r)
    rw [e] at ha
    simp at ha

/-- C7 counterexample: the tutor `solve_equation` handler picks
`symbols[0]`, the first element of the unordered `list(eq.free_symbols)`
enumeration.  For the equation `x + y = 0`, whose free-symbol set is
`{x, y}`, Python may enumerate the set as `[y, x]` (set order is
unspecified), and then the chosen variable is `y`, not the
alphabetically-first `x`. -/
theorem tutor_variable_not_alphabetical :
    tutorChosenVar ["y", "x"] = some "y" ∧
    (sortedFreeVars ["y", "x"]).head? = some "x" ∧
    ("y" : String) ≠ "x" := by
  exact ⟨rfl, by decide, by decide⟩

/-- C7 (amended): `parse_and_solve` sorts the free symbols by name and
takes the first, so its choice is an alphabetically-least free symbol of
the equation; the tutor `solve_equation` handler instead takes the head of
the unspecified set enumeration, with no ordering guarantee. -/
theorem solve_variable_choice :
    (∀ free : List String, free ≠ [] →
      ∃ m, (sortedFreeVars free).head? = some m ∧ m ∈ free ∧
        ∀ x ∈ free, strLeB m x = true) ∧
    (∀ enumerated : List String, tutorChosenVar enumerated = enumerated.head?) := by
  constructor
  · intro free hne
    have hperm : List.Perm (sortStr (dedupStr free)) (dedupStr free) :=
      List.perm_insertionSort _ _
    have hsorted : List.Sorted (fun a b => strLeB a b = true) (sortStr (dedupStr free)) :=
      List.sorted_insertionSort _ _
    have hd : dedupStr free ≠ [] := dedupStr_ne_nil hne
    have hs : sortStr (dedupStr free) ≠ [] := by
      intro e
      exact hd (List.Perm.eq_nil (e ▸ hperm.symm))
    cases hsv : sortStr (dedupStr free) with
    | nil => exact absurd hsv hs
    | cons m t =>
      have hmem : ∀ y : String, y ∈ m :: t ↔ y ∈ dedupStr free := by
        intro y
        rw [← hsv]
        exact hperm.mem_iff
      refine ⟨m, ?_, ?_, ?_⟩
      · have : (sortStr (dedupStr free)).head? = some m := by rw [hsv]; rfl
        exact this
      · exact mem_dedupStr.mp ((hmem m).mp (List.mem_cons_self m t))
      · intro x hx
        have hx2 : x ∈ m :: t := (hmem x).mpr (mem_dedupStr.mpr hx)
        rcases List.mem_cons.mp hx2 with h1 | h1
        · subst h1
          exact lexLe_refl x.data
        · have hpair := List.pairwise_cons.mp (hsv ▸ hsorted)
          exact hpair.1 x h1
  · intro enumerated
    rfl

/-- Witness for C7 at the concrete symbol set `{x, y}` enumerated as
`[y, x]`. -/
theorem solve_variable_choice_witness :
    (∃ m, (sortedFreeVars ["y", "x"]).head? = some m ∧ m ∈ ["y", "x"] ∧
      ∀ x ∈ ["y", "x"], strLeB m x = true) ∧
    tutorChosenVar ["y", "x"] = (["y", "x"] : List String).head? :=
  ⟨solve_variable_choice.1 ["y", "x"] (by decide), solve_variable_choice.2 ["y", "x"]⟩

theorem mkcat_ne_empty (pre : List Char) (hp : pre ≠ []) (rest : List Char) :
    String.mk (pre ++ rest) ≠ "" := by
  intro e
  have hd : pre ++ rest = ([] : List Char) := by
    have := congrArg String.data e
    simpa using this
  exact hp (List.append_eq_nil.mp hd).1

theorem sympifyM_ok_balanced (s : List Char) (x : PExpr) (h : sympifyM s = .ok x) :
    balancedP s = true := by
  by_cases hb : balancedP s = true
  · exact hb
  · exfalso
    unfold sympifyM sympifyRaw at h
    rw [if_neg hb] at h
    exact Except.noConfusion h

theorem sympifyM_error_ne (s : List Char) (e : String) (h : sympifyM s = .error e) :
    e ≠ "" := by
  unfold sympifyM at h
  cases hr : sympifyRaw s with
  | ok x => rw [hr] at h; exact Except.noConfusion h
  | error m =>
    rw [hr] at h
    injection h with h2
    rw [← h2]
    exact mkcat_ne_empty _ (by decide) _

theorem solveM_error_ne (l r : PExpr) (v : String) (e : String)
    (h : solveM l r v = .error e) : e ≠ "" := by
  unfold solveM at h
  repeat' split at h
  all_goals
    first
      | exact Except.noConfusion h
      | (injection h with h2; rw [← h2]; exact mkcat_ne_empty _ (by decide) _)

theorem mkcat_ne_empty_right (pre : List Char) (rest : List Char) (hr : rest ≠ []) :
    String.mk (pre ++ rest) ≠ "" := by
  intro e
  have hd : pre ++ rest = ([] : List Char) := by
    have := congrArg String.data e
    simpa using this
  exact hr (List.append_eq_nil.mp hd).2

theorem nameErrE_error_ne {α : Type} (n : String) (e : String)
    (h : (nameErrE n : Except String α) = .error e) : e ≠ "" := by
  unfold nameErrE at h
  injection h with h2
  rw [← h2]
  exact mkcat_ne_empty_right _ _ (by decide)

theorem diffEngine_error_ne (x : PExpr) (v : String) (e : String)
    (h : diffEngine x v = .error e) : e ≠ "" := by
  unfold diffEngine at h
  repeat' split at h
  all_goals
    first
      | exact Except.noConfusion h
      | (injection h with h2; rw [← h2]; exact mkcat_ne_empty _ (by decide) _)

theorem integrateEngine_error_ne (x : PExpr) (v : String) (e : String)
    (h : integrateEngine x v = .error e) : e ≠ "" := by
  unfold integrateEngine at h
  repeat' split at h
  all_goals
    first
      | exact Except.noConfusion h
      | (injection h with h2; rw [← h2]; exact mkcat_ne_empty _ (by decide) _)

theorem limitEngine_error_ne (x : PExpr) (v : String) (p : PExpr) (e : String)
    (h : limitEngine x v p = .error e) : e ≠ "" := by
  unfold limitEngine at h
  repeat' split at h
  all_goals
    first
      | exact Except.noConfusion h
      | (injection h with h2; rw [← h2]; exact mkcat_ne_empty _ (by decide) _)

/-- Characters that affect the parenthesis balance. -/
def isParenC (c : Char) : Bool := c = '(' || c = ')'

theorem ws_not_paren {c : Char} (h : isWsC c = true) : isParenC c = false := by
  unfold isWsC at h
  rcases Bool.or_eq_true _ _ |>.mp h with h1 | h1
  · rcases Bool.or_eq_true _ _ |>.mp h1 with h2 | h2
    · rcases Bool.or_eq_true _ _ |>.mp h2 with h3 | h3
      · rw [show c = ' ' from by simpa using h3]; decide
      · rw [show c = '\t' from by simpa using h3]; decide
    · rw [show c = '\n' from by simpa using h2]; decide
  · rw [show c = '\r' from by simpa using h1]; decide

theorem balAux_filter : ∀ (l : List Char) (n : Nat),
    balAux l n = balAux (l.filter isParenC) n := by
  intro l
  induction l with
  | nil => intro n; rfl
  | cons c r IH =>
    intro n
    by_cases h1 : c = '('
    · subst h1
      simp only [List.filter_cons, show isParenC '(' = true from rfl, if_pos trivial]
      simp only [balAux, if_pos rfl]
      exact IH (n + 1)
    · by_cases h2 : c = ')'
      · subst h2
        simp only [List.filter_cons, show isParenC ')' = true from rfl, if_pos trivial]
        simp only [balAux, if_neg (show ¬(')' : Char) = '(' from by decide), if_pos rfl]
        cases n with
        | zero => rfl
        | succ m => exact IH m
      · have hp : isParenC c = false := by
          unfold isParenC
          simp [h1, h2]
        simp only [List.filter_cons, hp]
        rw [if_neg (show ¬(false = true) from by decide)]
        simp only [balAux, if_neg h1, if_neg h2]
        exact IH n

theorem filter_dropWhile_ws (l : List Char) :
    (l.dropWhile isWsC).filter isParenC = l.filter isParenC := by
  induction l with
  | nil => rfl
  | cons c r IH =>
    rw [List.dropWhile_cons]
    by_cases h : isWsC c
    · rw [if_pos h, IH, show List.filter isParenC (c :: r) = List.filter isParenC r by
        simp [List.filter, ws_not_paren h]]
    · rw [if_neg h]

theorem filter_pstrip (l : List Char) :
    (pstrip l).filter isParenC = l.filter isParenC := by
  unfold pstrip
  rw [List.filter_reverse, filter_dropWhile_ws, List.filter_reverse,
    List.reverse_reverse, filter_dropWhile_ws]

theorem balanced_pstrip (l : List Char) : balancedP (pstrip l) = balancedP l := by
  unfold balancedP
  rw [balAux_filter, filter_pstrip, ← balAux_filter]

theorem balAux_append : ∀ (a b : List Char) (n : Nat),
    balAux (a ++ b) n = match balAux a n with
                        | some m => balAux b m
                        | none => none := by
  intro a
  induction a with
  | nil => intro b n; rfl
  | cons c r IH =>
    intro b n
    rw [List.cons_append]
    by_cases h1 : c = '('
    · subst h1
      simp only [balAux, if_pos rfl]
      exact IH b (n + 1)
    · by_cases h2 : c = ')'
      · subst h2
        simp only [balAux, if_neg (show ¬(')' : Char) = '(' from by decide), if_pos rfl]
        cases n with
        | zero => rfl
        | succ m => exact IH b m
      · simp only [balAux, if_neg h1, if_neg h2]
        exact IH b n

theorem balanced_append_eq (l r : List Char) (hl : balancedP l = true)
    (hr : balancedP r = true) : balancedP (l ++ '=' :: r) = true := by
  unfold balancedP at hl hr ⊢
  rw [balAux_append]
  rw [show balAux l 0 = some 0 from by simpa using hl]
  rw [show (match some 0 with
            | some m => balAux ('=' :: r) m
            | none => (none : Option Nat)) = balAux ('=' :: r) 0 from rfl]
  rw [show balAux ('=' :: r) 0 = balAux r 0 from by
    simp only [balAux, if_neg (show ¬('=' : Char) = '(' from by decide),
      if_neg (show ¬('=' : Char) = ')' from by decide)]]
  simpa using hr

theorem splitFirst_append {c : Char} : ∀ {l a b : List Char},
    splitFirst c l = some (a, b) → l = a ++ c :: b := by
  intro l
  induction l with
  | nil => intro a b h; simp [splitFirst] at h
  | cons d r IH =>
    intro a b h
    rw [splitFirst] at h
    by_cases hd : d = c
    · rw [if_pos hd] at h
      injection h with h2
      injection h2 with h3 h4
      rw [← h3, ← h4, hd]
      rfl
    · rw [if_neg hd] at h
      cases hs : splitFirst c r with
      | none => rw [hs] at h; exact Option.noConfusion h
      | some p =>
        obtain ⟨a2, b2⟩ := p
        rw [hs] at h
        injection h with h2
        injection h2 with h3 h4
        rw [← h3, ← h4, List.cons_append, IH hs]

/-- A mapped `Except` that produced `.ok` comes from an `.ok`. -/
theorem mapOk {α β : Type} (x : Except String α) (f : α → β) (r : β)
    (h : (f <$> x) = Except.ok r) : ∃ a, x = .ok a ∧ r = f a := by
  cases hx : x with
  | error m => rw [hx] at h; simp [Functor.map, Except.map] at h
  | ok a =>
    rw [hx] at h
    simp only [Functor.map, Except.map, Except.ok.injEq] at h
    exact ⟨a, rfl, h.symm⟩

/-- A mapped `Except` that produced an error comes from that error. -/
theorem mapError {α β : Type} (x : Except String α) (f : α → β) (e : String)
    (h : (f <$> x) = Except.error e) : x = .error e := by
  cases hx : x with
  | error m =>
    rw [hx] at h
    simp only [Functor.map, Except.map] at h
    injection h with h2
    subst h2
    rfl
  | ok a => rw [hx] at h; simp [Functor.map, Except.map] at h

theorem psEquationCont_ok (eqL eqR : PExpr) (r : PSResult)
    (h : psEquationCont eqL eqR = .ok r) : r.ok = true := by
  unfold psEquationCont at h
  split at h
  · simp [nameErrE] at h
  · split at h
    · rename_i hcont
      exact absurd hcont (by decide)
    · simp only [] at h
      split at h
      · simp [nameErrE] at h
      · split at h
        · simp [nameErrE] at h
        · obtain ⟨a, -, hr⟩ := mapOk _ _ _ h
          subst hr
          rfl

theorem psEquationCont_error (eqL eqR : PExpr) (e : String)
    (h : psEquationCont eqL eqR = .error e) : e ≠ "" := by
  unfold psEquationCont at h
  split at h
  · exact nameErrE_error_ne _ _ h
  · split at h
    · rename_i hcont
      exact absurd hcont (by decide)
    · simp only [] at h
      split at h
      · exact nameErrE_error_ne _ _ h
      · split at h
        · exact nameErrE_error_ne _ _ h
        · exact solveM_error_ne _ _ _ _ (mapError _ _ _ h)

theorem psBody_ok (q : List Char) (t : String) (r : PSResult)
    (h : psBody q t = .ok r) : r.ok = true ∧ balancedP q = true := by
  unfold psBody at h
  split at h
  · split at h <;> simp [nameErrE] at h
  · split at h
    · rename_i hsplit
      cases hsp : splitFirst '=' q with
      | some p =>
        obtain ⟨l1, r1⟩ := p
        rw [hsp] at h
        simp only [Bind.bind, Except.bind] at h
        cases hL : sympifyM (pstrip l1) with
        | error m => rw [hL] at h; exact Except.noConfusion h
        | ok L =>
          rw [hL] at h
          cases hR : sympifyM (pstrip r1) with
          | error m => rw [hR] at h; exact Except.noConfusion h
          | ok R =>
            rw [hR] at h
            refine ⟨psEquationCont_ok _ _ _ h, ?_⟩
            have hbl : balancedP (pstrip l1) = true := sympifyM_ok_balanced _ _ hL
            have hbr : balancedP (pstrip r1) = true := sympifyM_ok_balanced _ _ hR
            rw [balanced_pstrip] at hbl hbr
            rw [splitFirst_append hsp]
            exact balanced_append_eq _ _ hbl hbr
      | none =>
        rw [hsp] at h
        simp only [Bind.bind, Except.bind] at h
        cases hQ : sympifyM q with
        | error m => rw [hQ] at h; exact Except.noConfusion h
        | ok E =>
          rw [hQ] at h
          exact ⟨psEquationCont_ok _ _ _ h, sympifyM_ok_balanced _ _ hQ⟩
    · simp only [Bind.bind, Except.bind] at h
      cases hQ : sympifyM q with
      | error m => rw [hQ] at h; exact Except.noConfusion h
      | ok E =>
        rw [hQ] at h
        simp [nameErrE] at h

theorem psBody_error (q : List Char) (t : String) (e : String)
    (h : psBody q t = .error e) : e ≠ "" := by
  unfold psBody at h
  split at h
  · split at h <;> exact nameErrE_error_ne _ _ h
  · split at h
    · cases hsp : splitFirst '=' q with
      | some p =>
        obtain ⟨l1, r1⟩ := p
        rw [hsp] at h
        simp only [Bind.bind, Except.bind] at h
        cases hL : sympifyM (pstrip l1) with
        | error m =>
          rw [hL] at h
          injection h with h2
          rw [← h2]
          exact sympifyM_error_ne _ _ hL
        | ok L =>
          rw [hL] at h
          cases hR : sympifyM (pstrip r1) with
          | error m =>
            rw [hR] at h
            injection h with h2
            rw [← h2]
            exact sympifyM_error_ne _ _ hR
          | ok R =>
            rw [hR] at h
            exact psEquationCont_error _ _ _ h
      | none =>
        rw [hsp] at h
        simp only [Bind.bind, Except.bind] at h
        cases hQ : sympifyM q with
        | error m =>
          rw [hQ] at h
          injection h with h2
          rw [← h2]
          exact sympifyM_error_ne _ _ hQ
        | ok E =>
          rw [hQ] at h
          exact psEquationCont_error _ _ _ h
    · simp only [Bind.bind, Except.bind] at h
      cases hQ : sympifyM q with
      | error m =>
        rw [hQ] at h
        injection h with h2
        rw [← h2]
        exact sympifyM_error_ne _ _ hQ
      | ok E =>
        rw [hQ] at h
        exact nameErrE_error_ne _ _ h

theorem psBody_unbalanced (q : List Char) (t : String)
    (hq : balancedP q = false) : ∃ e, psBody q t = .error e := by
  cases hb : psBody q t with
  | error e => exact ⟨e, rfl⟩
  | ok r =>
    exfalso
    have := (psBody_ok q t r hb).2
    rw [hq] at this
    exact Bool.noConfusion this

theorem tutor_solve_equation_ok (enum : List String → List String) (p : List Char)
    (r : AOut) (h : tutor_solve_equation enum p = .ok r) : r.error = none := by
  unfold tutor_solve_equation at h
  simp only [] at h
  all_goals try split at h
  all_goals try split at h
  all_goals try split at h
  all_goals try split at h
  all_goals
    first
      | exact Except.noConfusion h
      | (injection h with h2; subst h2; rfl)
      | (obtain ⟨a, -, hr⟩ := mapOk _ _ _ h; subst hr; rfl)

theorem tutor_solve_equation_error (enum : List String → List String) (p : List Char)
    (e : String) (h : tutor_solve_equation enum p = .error e) : e ≠ "" := by
  unfold tutor_solve_equation at h
  simp only [] at h
  all_goals try split at h
  all_goals try split at h
  all_goals try split at h
  all_goals try split at h
  all_goals
    first
      | exact Except.noConfusion h
      | (injection h with h2; rw [← h2]; decide)
      | exact solveM_error_ne _ _ _ _ (mapError _ _ _ h)

theorem tutor_differentiate_ok (enum : List String → List String) (p : List Char)
    (r : AOut) (h : tutor_differentiate enum p = .ok r) : r.error = none := by
  unfold tutor_differentiate at h
  simp only [] at h
  all_goals try split at h
  all_goals try split at h
  all_goals try split at h
  all_goals try split at h
  all_goals
    first
      | exact Except.noConfusion h
      | (injection h with h2; subst h2; rfl)
      | (obtain ⟨a, -, hr⟩ := mapOk _ _ _ h; subst hr; rfl)

theorem tutor_differentiate_error (enum : List String → List String) (p : List Char)
    (e : String) (h : tutor_differentiate enum p = .error e) : e ≠ "" := by
  unfold tutor_differentiate at h
  simp only [] at h
  all_goals try split at h
  all_goals try split at h
  all_goals try split at h
  all_goals try split at h
  all_goals
    first
      | exact Except.noConfusion h
      | (injection h with h2; rw [← h2]; decide)
      | exact diffEngine_error_ne _ _ _ (mapError _ _ _ h)

theorem tutor_integrate_ok (enum : List String → List String) (p : List Char)
    (r : AOut) (h : tutor_integrate enum p = .ok r) : r.error = none := by
  unfold tutor_integrate at h
  simp only [] at h
  all_goals try split at h
  all_goals try split at h
  all_goals try split at h
  all_goals try split at h
  all_goals
    first
      | exact Except.noConfusion h
      | (injection h with h2; subst h2; rfl)
      | (obtain ⟨a, -, hr⟩ := mapOk _ _ _ h; subst hr; rfl)

theorem tutor_integrate_error (enum : List String → List String) (p : List Char)
    (e : String) (h : tutor_integrate enum p = .error e) : e ≠ "" := by
  unfold tutor_integrate at h
  simp only [] at h
  all_goals try split at h
  all_goals try split at h
  all_goals try split at h
  all_goals try split at h
  all_goals
    first
      | exact Except.noConfusion h
      | (injection h with h2; rw [← h2]; decide)
      | exact integrateEngine_error_ne _ _ _ (mapError _ _ _ h)

theorem tutor_limit_ok (p : List Char) (r : AOut)
    (h : tutor_limit p = .ok r) : r.error = none := by
  unfold tutor_limit at h
  try simp only [] at h
  all_goals try split at h
  all_goals try split at h
  all_goals try split at h
  all_goals
    first
      | exact Except.noConfusion h
      | (injection h with h2; subst h2; rfl)
      | (obtain ⟨a, -, hr⟩ := mapOk _ _ _ h; subst hr; rfl)

theorem tutor_limit_error (p : List Char) (e : String)
    (h : tutor_limit p = .error e) : e ≠ "" := by
  unfold tutor_limit at h
  try simp only [] at h
  all_goals try split at h
  all_goals try split at h
  all_goals try split at h
  all_goals
    first
      | exact Except.noConfusion h
      | (injection h with h2; rw [← h2]; decide)
      | exact limitEngine_error_ne _ _ _ _ (mapError _ _ _ h)

theorem tutor_simplify_ok (p : List Char) (r : AOut)
    (h : tutor_simplify p = .ok r) : r.error = none := by
  unfold tutor_simplify at h
  all_goals try split at h
  all_goals
    first
      | exact Except.noConfusion h
      | (injection h with h2; subst h2; rfl)

theorem tutor_simplify_error (p : List Char) (e : String)
    (h : tutor_simplify p = .error e) : e ≠ "" := by
  unfold tutor_simplify at h
  all_goals try split at h
  all_goals
    first
      | exact Except.noConfusion h
      | (injection h with h2; rw [← h2]; decide)

theorem tutor_factor_ok (p : List Char) (r : AOut)
    (h : tutor_factor p = .ok r) : r.error = none := by
  unfold tutor_factor at h
  all_goals try split at h
  all_goals
    first
      | exact Except.noConfusion h
      | (injection h with h2; subst h2; rfl)

theorem tutor_factor_error (p : List Char) (e : String)
    (h : tutor_factor p = .error e) : e ≠ "" := by
  unfold tutor_factor at h
  all_goals try split at h
  all_goals
    first
      | exact Except.noConfusion h
      | (injection h with h2; rw [← h2]; decide)

theorem analyze_and_solve_error_ne (enum : List String → List String) (p : List Char)
    (e : String) (h : (analyze_and_solve enum p).error = some e) : e ≠ "" := by
  unfold analyze_and_solve at h
  simp only [] at h
  split at h
  · rename_i r heq
    split at heq
    · rw [tutor_solve_equation_ok _ _ _ heq] at h; exact Option.noConfusion h
    · split at heq
      · rw [tutor_differentiate_ok _ _ _ heq] at h; exact Option.noConfusion h
      · split at heq
        · rw [tutor_integrate_ok _ _ _ heq] at h; exact Option.noConfusion h
        · split at heq
          · rw [tutor_limit_ok _ _ heq] at h; exact Option.noConfusion h
          · split at heq
            · rw [tutor_factor_ok _ _ heq] at h; exact Option.noConfusion h
            · rw [tutor_simplify_ok _ _ heq] at h; exact Option.noConfusion h
  · rename_i e2 heq
    injection h with h2
    subst h2
    split at heq
    · exact tutor_solve_equation_error _ _ _ heq
    · split at heq
      · exact tutor_differentiate_error _ _ _ heq
      · split at heq
        · exact tutor_integrate_error _ _ _ heq
        · split at heq
          · exact tutor_limit_error _ _ heq
          · split at heq
            · exact tutor_factor_error _ _ heq
            · exact tutor_simplify_error _ _ heq

/-- C1 (counterexample): the query `integrate((x),y)(` has unmatched
parentheses, yet `analyze_and_solve` dispatches it to the integrate handler
and returns a success record with no error entry: the unanchored `re.match`
in `integrate` matches the prefix `integrate((x),y)` and silently discards
the trailing `(`, so an unbalanced query does not always surface a failure. -/
theorem analyze_unbalanced_integrate_succeeds :
    balancedP "integrate((x),y)(".data = false ∧
    (analyze_and_solve (fun l => l) "integrate((x),y)(".data).error = none ∧
    (analyze_and_solve (fun l => l) "integrate((x),y)(".data).operation =
      some "integrate" := by
  decide

/-- C1 (amended): the dispatchers never propagate an exception, and failures
surface as data. (i) Whenever `parse_and_solve` reports `ok = false`, the
result is empty and the warnings list is exactly one non-empty failure
message; (ii) a query with unmatched parentheses always makes
`parse_and_solve` report `ok = false`; (iii) whenever `analyze_and_solve`
reports an error entry, that error string is non-empty. (Unlike the original
claim, an unbalanced query is not guaranteed to fail in `analyze_and_solve`:
the integrate handler can accept it, see the counterexample.) -/
theorem dispatcher_failures_surface_as_results :
    (∀ (query task : String), (parse_and_solve query task).ok = false →
        (parse_and_solve query task).result = none ∧
        ∃ w, (parse_and_solve query task).warnings = [w] ∧ w ≠ "") ∧
    (∀ (query task : String), balancedP query.data = false →
        (parse_and_solve query task).ok = false) ∧
    (∀ (enum : List String → List String) (p : List Char) (e : String),
        (analyze_and_solve enum p).error = some e → e ≠ "") := by
  refine ⟨?_, ?_, ?_⟩
  · intro query task h
    cases hb : psBody query.data task with
    | ok r =>
      have hpr : parse_and_solve query task = r := by
        unfold parse_and_solve; rw [hb]
      rw [hpr] at h
      rw [(psBody_ok _ _ _ hb).1] at h
      exact Bool.noConfusion h
    | error e =>
      have hpr : parse_and_solve query task =
          { ok := false, detected := {}, result := none, steps := [],
            warnings := [e] } := by
        unfold parse_and_solve; rw [hb]
      rw [hpr]
      exact ⟨rfl, e, rfl, psBody_error _ _ _ hb⟩
  · intro query task hq
    obtain ⟨e, he⟩ := psBody_unbalanced query.data task hq
    have hpr : parse_and_solve query task =
        { ok := false, detected := {}, result := none, steps := [],
          warnings := [e] } := by
      unfold parse_and_solve; rw [he]
    rw [hpr]
  · exact analyze_and_solve_error_ne

/-- Witness for C1 at concrete inputs: the unbalanced query `((x + 1 = 5`
makes `parse_and_solve` fail with an empty result and one non-empty warning,
and the unbalanced plain expression `((x + 1` gives `analyze_and_solve` a
non-empty error entry. -/
theorem dispatcher_failures_surface_as_results_witness :
    (parse_and_solve "((x + 1 = 5" "auto").ok = false ∧
    (parse_and_solve "((x + 1 = 5" "auto").result = none ∧
    (∃ w, (parse_and_solve "((x + 1 = 5" "auto").warnings = [w] ∧ w ≠ "") ∧
    "Couldnt parse expression to simplify." ≠ "" := by
  refine ⟨dispatcher_failures_surface_as_results.2.1 "((x + 1 = 5" "auto"
            (by decide),
          (dispatcher_failures_surface_as_results.1 "((x + 1 = 5" "auto"
            (by decide)).1,
          (dispatcher_failures_surface_as_results.1 "((x + 1 = 5" "auto"
            (by decide)).2,
          dispatcher_failures_surface_as_results.2.2 (fun l => l)
            "((x + 1".data "Couldnt parse expression to simplify."
            (by decide)⟩
